import Mathlib

/-! Kalman filter for the linear system `p' = p + v*dt + 0.5*a*dt^2`, `v' = v + a*dt`

A shallow embedding of `kalman.h`, `kalman_meschach.c` and `kalman_opencv.c`.

The C `float` / Meschach `Real` scalars are modelled by exact rationals `ℚ`
(every finite floating-point value is a rational), so all statements below are
statements about the program in exact arithmetic.  The in-place mutation of
`kalman_t` is modelled by explicit state passing: every C statement that writes
a field becomes one record update, in source order.
-/

open Matrix

/-! ## `kalman.h` -/

/-- State estimate, `kalman_out_t` of `kalman.h`. -/
structure kalman_out_t where
  pos : ℚ
  speed : ℚ
  deriving DecidableEq

/-- Measurement and control sample, `kalman_in_t` of `kalman.h`. -/
structure kalman_in_t where
  pos : ℚ
  acc : ℚ
  deriving DecidableEq

/-- Filter configuration, `kalman_config_t` of `kalman.h`. -/
structure kalman_config_t where
  dt : ℚ
  process_var : ℚ
  measurement_var : ℚ
  deriving DecidableEq

/-! ## The Meschach primitives used by `kalman_meschach.c`

Meschach is an external library.  Each primitive is modelled by what it computes
on matrices of the dimensions at which the filter calls it. -/

namespace Meschach

/-- A Meschach `MAT` whose dimensions are data (used for the one matrix of the
filter that is resized, the gain `K`). -/
structure MAT where
  m : ℕ
  n : ℕ
  me : Matrix (Fin m) (Fin n) ℚ

/-- The function `v_get(n)`: a fresh zero vector of dimension `n`. -/
def v_get (n : ℕ) : Fin n → ℚ := fun _ => 0

/-- The function `m_get(m, n)`: a fresh zero `m × n` matrix. -/
def m_get (m n : ℕ) : Matrix (Fin m) (Fin n) ℚ := fun _ _ => 0

/-- The function `m_ident(A)`: overwrite `A` with the identity. -/
def m_ident {n : ℕ} (_A : Matrix (Fin n) (Fin n) ℚ) : Matrix (Fin n) (Fin n) ℚ :=
  fun i j => if i = j then 1 else 0

/-- The function `v_set_val(x, i, val)`. -/
def v_set_val {n : ℕ} (x : Fin n → ℚ) (i : Fin n) (val : ℚ) : Fin n → ℚ :=
  fun k => if k = i then val else x k

/-- The function `m_set_val(A, i, j, val)`. -/
def m_set_val {m n : ℕ} (A : Matrix (Fin m) (Fin n) ℚ) (i : Fin m) (j : Fin n) (val : ℚ) :
    Matrix (Fin m) (Fin n) ℚ :=
  fun k l => if k = i ∧ l = j then val else A k l

/-- The function `v_entry(x, i)`. -/
def v_entry {n : ℕ} (x : Fin n → ℚ) (i : Fin n) : ℚ := x i

/-- The function `sm_mlt(s, A, OUT)`: `OUT = s * A`. -/
def sm_mlt {m n : ℕ} (s : ℚ) (A : Matrix (Fin m) (Fin n) ℚ) : Matrix (Fin m) (Fin n) ℚ :=
  fun i j => s * A i j

/-- The function `mv_mlt(A, b, OUT)`: `OUT = A * b`. -/
def mv_mlt {m n : ℕ} (A : Matrix (Fin m) (Fin n) ℚ) (b : Fin n → ℚ) : Fin m → ℚ :=
  fun i => ∑ j, A i j * b j

/-- The function `m_mlt(A, B, OUT)`: `OUT = A * B` (`OUT` is resized to fit). -/
def m_mlt {m k n : ℕ} (A : Matrix (Fin m) (Fin k) ℚ) (B : Matrix (Fin k) (Fin n) ℚ) :
    Matrix (Fin m) (Fin n) ℚ :=
  fun i j => ∑ l, A i l * B l j

/-- The function `mmtr_mlt(A, B, OUT)`: `OUT = A * Bᵀ`. -/
def mmtr_mlt {m k n : ℕ} (A : Matrix (Fin m) (Fin k) ℚ) (B : Matrix (Fin n) (Fin k) ℚ) :
    Matrix (Fin m) (Fin n) ℚ :=
  fun i j => ∑ l, A i l * B j l

/-- The function `m_add(A, B, OUT)`: `OUT = A + B`. -/
def m_add {m n : ℕ} (A B : Matrix (Fin m) (Fin n) ℚ) : Matrix (Fin m) (Fin n) ℚ :=
  fun i j => A i j + B i j

/-- The function `m_sub(A, B, OUT)`: `OUT = A - B`. -/
def m_sub {m n : ℕ} (A B : Matrix (Fin m) (Fin n) ℚ) : Matrix (Fin m) (Fin n) ℚ :=
  fun i j => A i j - B i j

/-- The function `v_add(a, b, OUT)`: `OUT = a + b`. -/
def v_add {n : ℕ} (a b : Fin n → ℚ) : Fin n → ℚ := fun i => a i + b i

/-- The function `v_sub(a, b, OUT)`: `OUT = a - b`. -/
def v_sub {n : ℕ} (a b : Fin n → ℚ) : Fin n → ℚ := fun i => a i - b i

/-- The function `v_copy(a, OUT)`. -/
def v_copy {n : ℕ} (a : Fin n → ℚ) : Fin n → ℚ := a

/-- The function `m_copy(A, OUT)`. -/
def m_copy {m n : ℕ} (A : Matrix (Fin m) (Fin n) ℚ) : Matrix (Fin m) (Fin n) ℚ := A

/-- Determinant of a `2 × 2` matrix. -/
def det2 (A : Matrix (Fin 2) (Fin 2) ℚ) : ℚ := A 0 0 * A 1 1 - A 0 1 * A 1 0

/-- The function `m_inverse(A, OUT)` on a `2 × 2` matrix.  Meschach factorises
`A = LU` and solves `A * OUT = I` column by column; the back-substitution raises
`E_SING` (which aborts the program) when a pivot is zero, that is, in exact
arithmetic, when `A` is singular.  Otherwise `OUT` is the inverse of `A`. -/
def m_inverse (A : Matrix (Fin 2) (Fin 2) ℚ) : Option (Matrix (Fin 2) (Fin 2) ℚ) :=
  if det2 A = 0 then none
  else some (fun i j =>
    if i = 0 then (if j = 0 then A 1 1 / det2 A else -(A 0 1) / det2 A)
    else (if j = 0 then -(A 1 0) / det2 A else A 0 0 / det2 A))

end Meschach

/-! ## `kalman_meschach.c` -/

namespace KalmanMeschach

open Meschach

/-- The filter, `struct kalman` of `kalman_meschach.c`. -/
structure kalman where
  Q : Matrix (Fin 2) (Fin 2) ℚ
  R : Matrix (Fin 2) (Fin 2) ℚ
  I : Matrix (Fin 2) (Fin 2) ℚ
  x : Fin 2 → ℚ
  z : Fin 2 → ℚ
  A : Matrix (Fin 2) (Fin 2) ℚ
  B : Matrix (Fin 2) (Fin 1) ℚ
  P : Matrix (Fin 2) (Fin 2) ℚ
  u : Fin 1 → ℚ
  H : Matrix (Fin 2) (Fin 2) ℚ
  K : MAT
  t0 : Fin 2 → ℚ
  t1 : Fin 2 → ℚ
  T0 : Matrix (Fin 2) (Fin 2) ℚ
  T1 : Matrix (Fin 2) (Fin 2) ℚ

/-- The function `kalman_init`: every field of the freshly allocated filter is
assigned, in source order.  (`Q` and `R` are allocated by `m_get` and at once
overwritten by `sm_mlt`, whose result is bound here.) -/
def kalman_init (dt q r pos speed : ℚ) : kalman :=
  let t0 := v_get 2
  let t1 := v_get 2
  let T0 := m_get 2 2
  let T1 := m_get 2 2
  let I := m_get 2 2
  let I := m_ident I
  let x := v_get 2
  let x := v_set_val x 0 pos
  let x := v_set_val x 1 speed
  let z := v_get 2
  let u := v_get 1
  let P := m_get 2 2
  let P := m_ident P
  let Q := sm_mlt q I
  let R := sm_mlt r I
  let K : MAT := ⟨2, 1, m_get 2 1⟩
  let H := m_get 2 2
  let H := m_set_val H 0 0 1
  let A := m_get 2 2
  let A := m_set_val A 0 0 1
  let A := m_set_val A 0 1 dt
  let A := m_set_val A 1 0 0
  let A := m_set_val A 1 1 1
  let B := m_get 2 1
  let B := m_set_val B 0 0 (1 / 2 * dt * dt)
  let B := m_set_val B 1 0 dt
  { Q := Q, R := R, I := I, x := x, z := z, A := A, B := B, P := P, u := u, H := H, K := K,
    t0 := t0, t1 := t1, T0 := T0, T1 := T1 }

/-- The function `kalman_predict`: `x = A * x + B * u`, `P = A * P * AT + Q`. -/
def kalman_predict (kf : kalman) (a : ℚ) : kalman :=
  let kf := { kf with u := v_set_val kf.u 0 a }
  let kf := { kf with t0 := mv_mlt kf.A kf.x }
  let kf := { kf with t1 := mv_mlt kf.B kf.u }
  let kf := { kf with x := v_add kf.t0 kf.t1 }
  let kf := { kf with T0 := m_mlt kf.A kf.P }
  let kf := { kf with T1 := mmtr_mlt kf.T0 kf.A }
  { kf with P := m_add kf.T1 kf.Q }

/-- The function `kalman_correct`.  `m_inverse` aborts on a singular matrix, so
the step returns `none` there.  The product `T0 * T1` stored into `K` is
`2 × 2`: `m_mlt` resizes the `2 × 1` matrix allocated by `kalman_init`. -/
def kalman_correct (kf : kalman) (p v : ℚ) : Option kalman :=
  let kf := { kf with T0 := m_mlt kf.H kf.P }
  let kf := { kf with T1 := mmtr_mlt kf.T0 kf.H }
  let kf := { kf with T0 := m_add kf.T1 kf.R }
  match m_inverse kf.T0 with
  | none => none
  | some inv =>
    let kf := { kf with T1 := inv }
    let kf := { kf with T0 := mmtr_mlt kf.P kf.H }
    let K := m_mlt kf.T0 kf.T1
    let kf := { kf with K := ⟨2, 2, K⟩ }
    let kf := { kf with t0 := mv_mlt kf.H kf.x }
    let kf := { kf with z := v_set_val kf.z 0 p }
    let kf := { kf with z := v_set_val kf.z 1 v }
    let kf := { kf with t1 := v_sub kf.z kf.t0 }
    let kf := { kf with t0 := mv_mlt K kf.t1 }
    let kf := { kf with t1 := v_add kf.x kf.t0 }
    let kf := { kf with x := v_copy kf.t1 }
    let kf := { kf with T0 := m_mlt K kf.H }
    let kf := { kf with T1 := m_sub kf.I kf.T0 }
    let kf := { kf with T0 := m_mlt kf.T1 kf.P }
    some { kf with P := m_copy kf.T0 }

/-- The function `kalman_run`: the predict step, then the correct step with the
velocity slot of the measurement set to `0.0`; the output is read from `x`.
Returns the output written to `out` and the mutated filter. -/
def kalman_run (kf : kalman) (inp : kalman_in_t) : Option (kalman_out_t × kalman) :=
  let kf := kalman_predict kf inp.acc
  match kalman_correct kf inp.pos 0 with
  | none => none
  | some kf =>
    let out : kalman_out_t := { pos := v_entry kf.x 0, speed := v_entry kf.x 1 }
    some (out, kf)

/-- The function `kalman_create`. -/
def kalman_create (config : kalman_config_t) (init_state : kalman_out_t) : kalman :=
  kalman_init config.dt config.process_var config.measurement_var init_state.pos init_state.speed

/-- A caller that feeds the filter one sample per cycle (as the loop of
`test.c` does): the outputs so far and the filter, or `none` once a cycle
aborts. -/
def run_all : kalman → List kalman_in_t → Option (List kalman_out_t × kalman)
  | kf, [] => some ([], kf)
  | kf, inp :: rest =>
    match kalman_run kf inp with
    | none => none
    | some (out, kf') =>
      match run_all kf' rest with
      | none => none
      | some (outs, kf'') => some (out :: outs, kf'')

end KalmanMeschach

/-! ## `kalman_opencv.c`

The second backend configures OpenCV's `CvKalman` with two state variables, one
measurement and one control.  OpenCV is an external library: `cvKalmanPredict`
and `cvKalmanCorrect` are modelled by the operations they perform on the
matrices of `CvKalman`. -/

namespace KalmanOpencv

/-- The fields of OpenCV's `CvKalman` for `cvCreateKalman(2, 1, 1)` that the
filter equations read or write. -/
structure CvKalman where
  state_pre : Matrix (Fin 2) (Fin 1) ℚ
  state_post : Matrix (Fin 2) (Fin 1) ℚ
  transition_matrix : Matrix (Fin 2) (Fin 2) ℚ
  control_matrix : Matrix (Fin 2) (Fin 1) ℚ
  measurement_matrix : Matrix (Fin 1) (Fin 2) ℚ
  process_noise_cov : Matrix (Fin 2) (Fin 2) ℚ
  measurement_noise_cov : Matrix (Fin 1) (Fin 1) ℚ
  error_cov_pre : Matrix (Fin 2) (Fin 2) ℚ
  gain : Matrix (Fin 2) (Fin 1) ℚ
  error_cov_post : Matrix (Fin 2) (Fin 2) ℚ

/-- The filter, `struct kalman` of `kalman_opencv.c`. -/
structure kalman where
  filter : CvKalman
  uk : Matrix (Fin 1) (Fin 1) ℚ
  zk : Matrix (Fin 1) (Fin 1) ℚ

/-- The function `cvSetIdentity(mat, value)`: `value` on the main diagonal, zero
elsewhere (also for a non-square matrix). -/
def cvSetIdentity {m n : ℕ} (_mat : Matrix (Fin m) (Fin n) ℚ) (value : ℚ) :
    Matrix (Fin m) (Fin n) ℚ :=
  fun i j => if i.val = j.val then value else 0

/-- The function `cvCreateKalman(2, 1, 1)`: all matrices zero except the
identities OpenCV installs by default. -/
def cvCreateKalman : CvKalman :=
  { state_pre := 0, state_post := 0, transition_matrix := 1, control_matrix := 0,
    measurement_matrix := 0, process_noise_cov := 1, measurement_noise_cov := 1,
    error_cov_pre := 0, gain := 0, error_cov_post := 0 }

/-- The function `cvKalmanPredict(kalman, control)`:
`x' = A*x + B*u`, `P' = A*P*At + Q`, and `x'` is also copied to `state_post`. -/
def cvKalmanPredict (k : CvKalman) (control : Matrix (Fin 1) (Fin 1) ℚ) : CvKalman :=
  let k := { k with state_pre := k.transition_matrix * k.state_post }
  let k := { k with state_pre := k.control_matrix * control + k.state_pre }
  let temp1 := k.transition_matrix * k.error_cov_post
  let k := { k with error_cov_pre := temp1 * k.transition_matrixᵀ + k.process_noise_cov }
  { k with state_post := k.state_pre }

/-- The function `cvKalmanCorrect(kalman, measurement)` with a single measurement:
`temp2 = H*P'`, `temp3 = temp2*Ht + R` (a `1 × 1` matrix), `Kt = inv(temp3)*temp2`
(division by the scalar `temp3`), `x = x' + K*(z - H*x')`, `P = P' - K*temp2`. -/
def cvKalmanCorrect (k : CvKalman) (measurement : Matrix (Fin 1) (Fin 1) ℚ) : CvKalman :=
  let temp2 := k.measurement_matrix * k.error_cov_pre
  let temp3 := temp2 * k.measurement_matrixᵀ + k.measurement_noise_cov
  let temp4 : Matrix (Fin 1) (Fin 2) ℚ := fun i j => temp2 i j / temp3 0 0
  let k := { k with gain := temp4ᵀ }
  let temp5 := measurement - k.measurement_matrix * k.state_pre
  let k := { k with state_post := k.state_pre + k.gain * temp5 }
  { k with error_cov_post := k.error_cov_pre - k.gain * temp2 }

/-- The function `kalman_create` of `kalman_opencv.c`. -/
def kalman_create (config : kalman_config_t) (init_state : kalman_out_t) : kalman :=
  let filter := cvCreateKalman
  let uk : Matrix (Fin 1) (Fin 1) ℚ := 0
  let zk : Matrix (Fin 1) (Fin 1) ℚ := 0
  let filter := { filter with measurement_matrix := cvSetIdentity filter.measurement_matrix 1 }
  let filter := { filter with
    process_noise_cov := cvSetIdentity filter.process_noise_cov config.process_var }
  let filter := { filter with
    measurement_noise_cov := cvSetIdentity filter.measurement_noise_cov config.measurement_var }
  let filter := { filter with error_cov_post := cvSetIdentity filter.error_cov_post 1 }
  let state : Matrix (Fin 2) (Fin 1) ℚ := !![init_state.pos; init_state.speed]
  let transition_matrix : Matrix (Fin 2) (Fin 2) ℚ := !![1, config.dt; 0, 1]
  let control_matrix : Matrix (Fin 2) (Fin 1) ℚ :=
    !![1 / 2 * config.dt * config.dt; config.dt]
  let filter := { filter with transition_matrix := transition_matrix }
  let filter := { filter with control_matrix := control_matrix }
  let filter := { filter with state_post := state }
  { filter := filter, uk := uk, zk := zk }

/-- The function `kalman_run` of `kalman_opencv.c`. -/
def kalman_run (kf : kalman) (inp : kalman_in_t) : kalman_out_t × kalman :=
  let kf := { kf with zk := !![inp.pos] }
  let kf := { kf with uk := !![inp.acc] }
  let kf := { kf with filter := cvKalmanPredict kf.filter kf.uk }
  let kf := { kf with filter := cvKalmanCorrect kf.filter kf.zk }
  ({ pos := kf.filter.state_post 0 0, speed := kf.filter.state_post 1 0 }, kf)

/-- One `kalman_run` per sample, as `KalmanMeschach.run_all`. -/
def run_all : kalman → List kalman_in_t → List kalman_out_t × kalman
  | kf, [] => ([], kf)
  | kf, inp :: rest =>
    let r := kalman_run kf inp
    let rs := run_all r.2 rest
    (r.1 :: rs.1, rs.2)

end KalmanOpencv

/-! ## Predicates used in the statements -/

namespace KalmanMeschach

open Meschach

/-- The filter holds the constant matrices of configuration `config`. -/
def HasConstants (config : kalman_config_t) (kf : kalman) : Prop :=
  kf.A = !![1, config.dt; 0, 1] ∧
  kf.B = !![(1 / 2 : ℚ) * config.dt ^ 2; config.dt] ∧
  kf.H = !![1, 0; 0, 0] ∧
  kf.Q = config.process_var • (1 : Matrix (Fin 2) (Fin 2) ℚ) ∧
  kf.R = config.measurement_var • (1 : Matrix (Fin 2) (Fin 2) ℚ) ∧
  kf.I = 1

/-- Positive semi-definiteness of a symmetric `2 × 2` matrix by its entries. -/
def PSD2 (P : Matrix (Fin 2) (Fin 2) ℚ) : Prop :=
  P 0 1 = P 1 0 ∧ 0 ≤ P 0 0 ∧ 0 ≤ P 1 1 ∧ 0 ≤ P 0 0 * P 1 1 - P 0 1 * P 1 0

/-- The matrix that `kalman_correct` hands to `m_inverse`: the value of `T0`
after its first three statements, `H * P * HT + R`. -/
def innovation_cov (kf : kalman) : Matrix (Fin 2) (Fin 2) ℚ :=
  m_add (mmtr_mlt (m_mlt kf.H kf.P) kf.H) kf.R

/-- A sample configuration: `dt = 2`, `q = 1/2`, `r = 1`. -/
def config_sample : kalman_config_t := ⟨2, 1 / 2, 1⟩

/-- A sample initial state: position `3`, speed `5`. -/
def init_sample : kalman_out_t := ⟨3, 5⟩

/-- The sample filter, freshly created. -/
def kf_sample : kalman := kalman_create config_sample init_sample

/-- A sample input: measured position `4`, acceleration `1`. -/
def in_sample : kalman_in_t := ⟨4, 1⟩

/-- The sample filter after one cycle on the sample input. -/
def kf_sample_next : kalman :=
  match kalman_run kf_sample in_sample with
  | some r => r.2
  | none => kf_sample

/-- A configuration with a large measurement variance: `dt = 1`, `q = 0`, `r = 4`. -/
def config_trace : kalman_config_t := ⟨1, 0, 4⟩

/-- A test harness that calls only the predict phase, `n` times, with
acceleration `a`. -/
def predict_n (kf : kalman) (a : ℚ) : ℕ → kalman
  | 0 => kf
  | n + 1 => kalman_predict (predict_n kf a n) a

/-- A configuration with `measurement_var = 0`: `dt = 1`, `q = 0`, `r = 0`. -/
def config_zero_r : kalman_config_t := ⟨1, 0, 0⟩

/-- A configuration outside the documented ranges: `dt = -1`, `q = -1/2`,
`r = -1/4`. -/
def config_invalid : kalman_config_t := ⟨-1, -1 / 2, -1 / 4⟩

/-- What the caller of `kalman_create` receives.  The function has the single
exit `return kalman`, the pointer to the initialised filter: `some`.  A rejected
configuration would be `none`; the source has no such exit. -/
def kalman_create_result (config : kalman_config_t) (init_state : kalman_out_t) :
    Option kalman :=
  some (kalman_create config init_state)

/-- A caller that feeds the same sample every cycle: the output of cycle `n + 1`
and the filter after it, or `none` once a cycle aborts. -/
def run_const (kf : kalman) (inp : kalman_in_t) : ℕ → Option (kalman_out_t × kalman)
  | 0 => kalman_run kf inp
  | n + 1 =>
    match run_const kf inp n with
    | none => none
    | some (_, kf') => kalman_run kf' inp

/-! Closed form of the filter after `N` cycles with `process_var = 0`,
acceleration `0` and constant measurement `c`, started from `P = I` with initial
error `(e0, e1) = (pos - c, speed)`:
`P = r/cf_den * [[cf_de, cf_be], [cf_be, cf_al]]`, `pos = c + r*cf_n0/cf_den`,
`speed = r*cf_n1/cf_den`. -/

/-- Closed form: numerator of `P11`. -/
def cf_al (r N : ℚ) : ℚ := r + N

/-- Closed form: numerator of `P01 = P10`. -/
def cf_be (dt r N : ℚ) : ℚ := dt * N * (2 * r + N - 1) / 2

/-- Closed form: numerator of `P00`. -/
def cf_de (dt r N : ℚ) : ℚ := r + dt ^ 2 * r * N ^ 2 + dt ^ 2 * (N * (N - 1) * (2 * N - 1) / 6)

/-- Closed form: the common denominator. -/
def cf_den (dt r N : ℚ) : ℚ :=
  r ^ 2 + r * N + dt ^ 2 * r * (N * (N + 1) * (2 * N + 1) / 6) +
    dt ^ 2 * N ^ 2 * (N ^ 2 - 1) / 12

/-- Closed form: numerator of the position error. -/
def cf_n0 (dt r e0 e1 N : ℚ) : ℚ :=
  (r - dt ^ 2 * (N * (N ^ 2 - 1) / 6)) * e0 + dt * N * (2 * r + N - 1) / 2 * e1

/-- Closed form: numerator of the speed. -/
def cf_n1 (dt r e0 e1 N : ℚ) : ℚ := -(dt * N * (N + 1) / 2) * e0 + (r + N) * e1

/-- Closed form of `P` after `N` cycles. -/
def cf_P (dt r N : ℚ) : Matrix (Fin 2) (Fin 2) ℚ :=
  !![r * cf_de dt r N / cf_den dt r N, r * cf_be dt r N / cf_den dt r N;
     r * cf_be dt r N / cf_den dt r N, r * cf_al r N / cf_den dt r N]

/-- Closed form of the position after `N` cycles. -/
def cf_pos (dt r e0 e1 c N : ℚ) : ℚ := c + r * cf_n0 dt r e0 e1 N / cf_den dt r N

/-- Closed form of the speed after `N` cycles. -/
def cf_speed (dt r e0 e1 N : ℚ) : ℚ := r * cf_n1 dt r e0 e1 N / cf_den dt r N

/-- The sample filter with other contents in the gain, the measurement and
control vectors and the temporaries. -/
def kf_sample_scrambled : kalman :=
  { kf_sample with
    K := ⟨1, 1, !![7]⟩, z := ![1, 2], u := ![9], t0 := ![3, 4], t1 := ![5, 6],
    T0 := !![1, 2; 3, 4], T1 := !![5, 6; 7, 8] }

end KalmanMeschach

/-! ## The relation between the two backends -/

namespace KalmanRefinement

/-- The OpenCV filter holds the constant matrices of configuration `config`, with
the scalar measurement model `H = [1 0]`, `R = [r]`. -/
def CvConstants (config : kalman_config_t) (f : KalmanOpencv.CvKalman) : Prop :=
  f.transition_matrix = !![1, config.dt; 0, 1] ∧
  f.control_matrix = !![(1 / 2 : ℚ) * config.dt ^ 2; config.dt] ∧
  f.measurement_matrix = !![1, 0] ∧
  f.process_noise_cov = config.process_var • (1 : Matrix (Fin 2) (Fin 2) ℚ) ∧
  f.measurement_noise_cov = !![config.measurement_var]

/-- The two filters carry the same state estimate and the same error covariance. -/
def SameState (kf : KalmanMeschach.kalman) (ko : KalmanOpencv.kalman) : Prop :=
  kf.x 0 = ko.filter.state_post 0 0 ∧ kf.x 1 = ko.filter.state_post 1 0 ∧
  kf.P = ko.filter.error_cov_post

end KalmanRefinement

/-! ## The primitives as matrix operations -/

namespace Meschach

theorem m_mlt_eq {m k n : ℕ} (A : Matrix (Fin m) (Fin k) ℚ) (B : Matrix (Fin k) (Fin n) ℚ) :
    m_mlt A B = A * B := by
  ext i j; simp [m_mlt, Matrix.mul_apply]

theorem mmtr_mlt_eq {m k n : ℕ} (A : Matrix (Fin m) (Fin k) ℚ) (B : Matrix (Fin n) (Fin k) ℚ) :
    mmtr_mlt A B = A * Bᵀ := by
  ext i j; simp [mmtr_mlt, Matrix.mul_apply]

theorem mv_mlt_eq {m n : ℕ} (A : Matrix (Fin m) (Fin n) ℚ) (b : Fin n → ℚ) :
    mv_mlt A b = A *ᵥ b := by
  ext i; simp [mv_mlt, Matrix.mulVec, Matrix.dotProduct]

theorem m_add_eq {m n : ℕ} (A B : Matrix (Fin m) (Fin n) ℚ) : m_add A B = A + B := by
  ext i j; simp [m_add]

theorem m_sub_eq {m n : ℕ} (A B : Matrix (Fin m) (Fin n) ℚ) : m_sub A B = A - B := by
  ext i j; simp [m_sub]

theorem v_add_eq {n : ℕ} (a b : Fin n → ℚ) : v_add a b = a + b := by
  ext i; simp [v_add]

theorem v_sub_eq {n : ℕ} (a b : Fin n → ℚ) : v_sub a b = a - b := by
  ext i; simp [v_sub]

theorem sm_mlt_eq {m n : ℕ} (s : ℚ) (A : Matrix (Fin m) (Fin n) ℚ) : sm_mlt s A = s • A := by
  ext i j; simp [sm_mlt]

theorem m_ident_eq {n : ℕ} (A : Matrix (Fin n) (Fin n) ℚ) : m_ident A = 1 := by
  ext i j; simp [m_ident, Matrix.one_apply]

theorem det2_eq (A : Matrix (Fin 2) (Fin 2) ℚ) : det2 A = A.det := by
  simp [det2, Matrix.det_fin_two]

theorem m_inverse_of_det_ne_zero (A : Matrix (Fin 2) (Fin 2) ℚ) (h : A.det ≠ 0) :
    m_inverse A = some A⁻¹ := by
  have hd : det2 A ≠ 0 := by rw [det2_eq]; exact h
  have hinv : A⁻¹ = (A.det)⁻¹ • A.adjugate := by
    rw [Matrix.inv_def, Ring.inverse_eq_inv']
  simp only [m_inverse, hd, if_false, Option.some.injEq]
  rw [hinv, Matrix.adjugate_fin_two, ← det2_eq]
  ext i j
  fin_cases i <;> fin_cases j <;> simp [div_eq_inv_mul]

theorem mat2_ext {M N : Matrix (Fin 2) (Fin 2) ℚ} (h00 : M 0 0 = N 0 0)
    (h01 : M 0 1 = N 0 1) (h10 : M 1 0 = N 1 0) (h11 : M 1 1 = N 1 1) : M = N := by
  ext i j
  fin_cases i <;> fin_cases j <;> assumption

theorem vec2_ext {a b : Fin 2 → ℚ} (h0 : a 0 = b 0) (h1 : a 1 = b 1) : a = b := by
  ext i
  fin_cases i <;> assumption

theorem inv_diag (a b : ℚ) (ha : a ≠ 0) (hb : b ≠ 0) :
    (!![a, 0; 0, b] : Matrix (Fin 2) (Fin 2) ℚ)⁻¹ = !![1 / a, 0; 0, 1 / b] := by
  apply Matrix.inv_eq_right_inv
  apply mat2_ext <;> simp [Matrix.mul_apply, Fin.sum_univ_two, ha, hb]

theorem m_inverse_eq_none_iff (A : Matrix (Fin 2) (Fin 2) ℚ) :
    m_inverse A = none ↔ A.det = 0 := by
  rw [← det2_eq]
  unfold m_inverse
  split_ifs with h <;> simp [h]

end Meschach

namespace KalmanMeschach

open Meschach

/-! ## Creation -/

theorem create_x (config : kalman_config_t) (init_state : kalman_out_t) :
    (kalman_create config init_state).x = ![init_state.pos, init_state.speed] := by
  ext i
  fin_cases i <;> simp [kalman_create, kalman_init, v_set_val, v_get]

theorem create_P (config : kalman_config_t) (init_state : kalman_out_t) :
    (kalman_create config init_state).P = 1 := by
  simp [kalman_create, kalman_init, m_ident_eq]

theorem create_hasConstants (config : kalman_config_t) (init_state : kalman_out_t) :
    HasConstants config (kalman_create config init_state) := by
  refine ⟨?_, ?_, ?_, ?_, ?_, ?_⟩
  · ext i j
    fin_cases i <;> fin_cases j <;> simp [kalman_create, kalman_init, m_set_val, m_get]
  · ext i j
    fin_cases i <;> fin_cases j <;>
      (simp [kalman_create, kalman_init, m_set_val, m_get]; try ring)
  · ext i j
    fin_cases i <;> fin_cases j <;> simp [kalman_create, kalman_init, m_set_val, m_get]
  · simp [kalman_create, kalman_init, m_ident_eq, sm_mlt_eq]
  · simp [kalman_create, kalman_init, m_ident_eq, sm_mlt_eq]
  · simp [kalman_create, kalman_init, m_ident_eq]

/-! ## The correct step -/

theorem v_set_val_pair (z : Fin 2 → ℚ) (p v : ℚ) :
    v_set_val (v_set_val z 0 p) 1 v = ![p, v] := by
  ext i
  fin_cases i <;> simp [v_set_val]

/-- The correct step returns exactly when the innovation covariance is invertible. -/
theorem correct_eq_none_iff (kf : kalman) (p v : ℚ) :
    kalman_correct kf p v = none ↔ (kf.H * kf.P * kf.Hᵀ + kf.R).det = 0 := by
  rw [← m_inverse_eq_none_iff]
  simp only [kalman_correct, m_add_eq, mmtr_mlt_eq, m_mlt_eq]
  cases m_inverse (kf.H * kf.P * kf.Hᵀ + kf.R) <;> simp

/-- What the correct step computes when the innovation covariance is invertible. -/
theorem correct_of_det_ne_zero (kf : kalman) (p v : ℚ)
    (h : (kf.H * kf.P * kf.Hᵀ + kf.R).det ≠ 0) :
    ∃ kf', kalman_correct kf p v = some kf' ∧
      kf'.K = ⟨2, 2, kf.P * kf.Hᵀ * (kf.H * kf.P * kf.Hᵀ + kf.R)⁻¹⟩ ∧
      kf'.z = ![p, v] ∧
      kf'.x = kf.x + (kf.P * kf.Hᵀ * (kf.H * kf.P * kf.Hᵀ + kf.R)⁻¹) *ᵥ
        (![p, v] - kf.H *ᵥ kf.x) ∧
      kf'.P = (kf.I - kf.P * kf.Hᵀ * (kf.H * kf.P * kf.Hᵀ + kf.R)⁻¹ * kf.H) * kf.P := by
  have hinv := m_inverse_of_det_ne_zero _ h
  simp only [kalman_correct, m_add_eq, mmtr_mlt_eq, m_mlt_eq, hinv, mv_mlt_eq, v_sub_eq,
    v_add_eq, m_sub_eq, v_copy, m_copy, v_set_val_pair]
  exact ⟨_, rfl, rfl, rfl, rfl, rfl⟩

/-- The correct step writes none of `A`, `B`, `H`, `Q`, `R`, `I`. -/
theorem correct_frame (kf kf' : kalman) (p v : ℚ) (h : kalman_correct kf p v = some kf') :
    kf'.A = kf.A ∧ kf'.B = kf.B ∧ kf'.H = kf.H ∧ kf'.Q = kf.Q ∧ kf'.R = kf.R ∧
    kf'.I = kf.I := by
  simp only [kalman_correct] at h
  split at h
  · exact absurd h (by simp)
  · simp only [Option.some.injEq] at h
    subst h
    exact ⟨rfl, rfl, rfl, rfl, rfl, rfl⟩

/-- The predict step writes none of `A`, `B`, `H`, `Q`, `R`, `I`. -/
theorem predict_frame (kf : kalman) (a : ℚ) :
    (kalman_predict kf a).A = kf.A ∧ (kalman_predict kf a).B = kf.B ∧
    (kalman_predict kf a).H = kf.H ∧ (kalman_predict kf a).Q = kf.Q ∧
    (kalman_predict kf a).R = kf.R ∧ (kalman_predict kf a).I = kf.I :=
  ⟨rfl, rfl, rfl, rfl, rfl, rfl⟩

theorem run_eq_some_iff (kf : kalman) (inp : kalman_in_t) (out : kalman_out_t) (kf' : kalman) :
    kalman_run kf inp = some (out, kf') ↔
      kalman_correct (kalman_predict kf inp.acc) inp.pos 0 = some kf' ∧
      out = ⟨kf'.x 0, kf'.x 1⟩ := by
  simp only [kalman_run, v_entry]
  cases hc : kalman_correct (kalman_predict kf inp.acc) inp.pos 0 with
  | none => simp
  | some k =>
    simp only [Option.some.injEq, Prod.mk.injEq]
    constructor
    · rintro ⟨h1, h2⟩
      subst h2
      exact ⟨rfl, h1.symm⟩
    · rintro ⟨h1, h2⟩
      subst h1
      exact ⟨h2.symm, rfl⟩

/-! ## The steps on a filter that holds the constants of a configuration -/

theorem H_entries (H : Matrix (Fin 2) (Fin 2) ℚ) (hH : H = !![1, 0; 0, 0]) :
    H 0 0 = 1 ∧ H 0 1 = 0 ∧ H 1 0 = 0 ∧ H 1 1 = 0 := by
  subst hH
  exact ⟨rfl, rfl, rfl, rfl⟩

theorem A_entries (A : Matrix (Fin 2) (Fin 2) ℚ) (dt : ℚ) (hA : A = !![1, dt; 0, 1]) :
    A 0 0 = 1 ∧ A 0 1 = dt ∧ A 1 0 = 0 ∧ A 1 1 = 1 := by
  subst hA
  exact ⟨rfl, rfl, rfl, rfl⟩

theorem B_entries (B : Matrix (Fin 2) (Fin 1) ℚ) (dt : ℚ)
    (hB : B = !![(1 / 2 : ℚ) * dt ^ 2; dt]) :
    B 0 0 = 1 / 2 * dt ^ 2 ∧ B 1 0 = dt := by
  subst hB
  exact ⟨rfl, rfl⟩

/-- The innovation covariance of a filter with `H = [[1,0],[0,0]]`, `R = r*I`. -/
theorem innov_eq (H P R : Matrix (Fin 2) (Fin 2) ℚ) (r : ℚ)
    (hH : H = !![1, 0; 0, 0]) (hR : R = r • (1 : Matrix (Fin 2) (Fin 2) ℚ)) :
    H * P * Hᵀ + R = !![P 0 0 + r, 0; 0, r] := by
  obtain ⟨h00, h01, h10, h11⟩ := H_entries H hH
  subst hR
  apply mat2_ext <;>
    simp only [Matrix.add_apply, Matrix.mul_apply, Fin.sum_univ_two, Matrix.transpose_apply,
      h00, h01, h10, h11] <;> simp

theorem innov_det (H P R : Matrix (Fin 2) (Fin 2) ℚ) (r : ℚ)
    (hH : H = !![1, 0; 0, 0]) (hR : R = r • (1 : Matrix (Fin 2) (Fin 2) ℚ)) :
    (H * P * Hᵀ + R).det = (P 0 0 + r) * r := by
  rw [innov_eq H P R r hH hR, Matrix.det_fin_two_of]
  ring

/-- The gain of a filter with `H = [[1,0],[0,0]]`, `R = r*I`. -/
theorem gain_eq (H P R : Matrix (Fin 2) (Fin 2) ℚ) (r : ℚ)
    (hH : H = !![1, 0; 0, 0]) (hR : R = r • (1 : Matrix (Fin 2) (Fin 2) ℚ))
    (hs : P 0 0 + r ≠ 0) (hr : r ≠ 0) :
    P * Hᵀ * (H * P * Hᵀ + R)⁻¹ = !![P 0 0 / (P 0 0 + r), 0; P 1 0 / (P 0 0 + r), 0] := by
  rw [innov_eq H P R r hH hR, inv_diag _ _ hs hr]
  obtain ⟨h00, h01, h10, h11⟩ := H_entries H hH
  apply mat2_ext <;>
    simp only [Matrix.add_apply, Matrix.mul_apply, Fin.sum_univ_two, Matrix.transpose_apply,
      h00, h01, h10, h11] <;> simp [div_eq_mul_inv]

theorem predict_hasConstants (config : kalman_config_t) (kf : kalman) (a : ℚ)
    (hc : HasConstants config kf) : HasConstants config (kalman_predict kf a) := hc

theorem correct_hasConstants (config : kalman_config_t) (kf kf' : kalman) (p v : ℚ)
    (hc : HasConstants config kf) (h : kalman_correct kf p v = some kf') :
    HasConstants config kf' := by
  obtain ⟨hA, hB, hH, hQ, hR, hI⟩ := correct_frame kf kf' p v h
  unfold HasConstants
  rw [hA, hB, hH, hQ, hR, hI]
  exact hc

/-- The predicted state and covariance, entry by entry. -/
theorem predict_explicit (config : kalman_config_t) (kf : kalman) (a : ℚ)
    (hc : HasConstants config kf) :
    (kalman_predict kf a).x =
      ![kf.x 0 + kf.x 1 * config.dt + 1 / 2 * a * config.dt ^ 2, kf.x 1 + a * config.dt] ∧
    (kalman_predict kf a).P =
      !![kf.P 0 0 + config.dt * kf.P 1 0 + config.dt * (kf.P 0 1 + config.dt * kf.P 1 1)
            + config.process_var,
         kf.P 0 1 + config.dt * kf.P 1 1;
         kf.P 1 0 + config.dt * kf.P 1 1,
         kf.P 1 1 + config.process_var] := by
  obtain ⟨hA, hB, _, hQ, _, _⟩ := hc
  obtain ⟨a00, a01, a10, a11⟩ := A_entries kf.A config.dt hA
  obtain ⟨b0, b1⟩ := B_entries kf.B config.dt hB
  constructor
  · apply vec2_ext <;>
      simp only [kalman_predict, v_add, mv_mlt, v_set_val, Fin.sum_univ_two, Fin.sum_univ_one,
        a00, a01, a10, a11, b0, b1] <;> simp <;> ring
  · apply mat2_ext <;>
      simp only [kalman_predict, m_add, mmtr_mlt, m_mlt, Fin.sum_univ_two,
        a00, a01, a10, a11, hQ] <;> simp <;> ring

/-- The corrected state and covariance, entry by entry. -/
theorem correct_explicit (config : kalman_config_t) (kf : kalman) (p : ℚ)
    (hc : HasConstants config kf) (hs : kf.P 0 0 + config.measurement_var ≠ 0)
    (hr : config.measurement_var ≠ 0) :
    ∃ kf', kalman_correct kf p 0 = some kf' ∧
      kf'.K = ⟨2, 2, !![kf.P 0 0 / (kf.P 0 0 + config.measurement_var), 0;
                        kf.P 1 0 / (kf.P 0 0 + config.measurement_var), 0]⟩ ∧
      kf'.x = ![kf.x 0 + kf.P 0 0 / (kf.P 0 0 + config.measurement_var) * (p - kf.x 0),
                kf.x 1 + kf.P 1 0 / (kf.P 0 0 + config.measurement_var) * (p - kf.x 0)] ∧
      kf'.P = !![kf.P 0 0 - kf.P 0 0 * kf.P 0 0 / (kf.P 0 0 + config.measurement_var),
                 kf.P 0 1 - kf.P 0 0 * kf.P 0 1 / (kf.P 0 0 + config.measurement_var);
                 kf.P 1 0 - kf.P 1 0 * kf.P 0 0 / (kf.P 0 0 + config.measurement_var),
                 kf.P 1 1 - kf.P 1 0 * kf.P 0 1 / (kf.P 0 0 + config.measurement_var)] := by
  obtain ⟨_, _, hH, _, hR, hI⟩ := hc
  have hdet : (kf.H * kf.P * kf.Hᵀ + kf.R).det ≠ 0 := by
    rw [innov_det kf.H kf.P kf.R _ hH hR]
    exact mul_ne_zero hs hr
  obtain ⟨kf', h, hK, _, hx, hP⟩ := correct_of_det_ne_zero kf p 0 hdet
  rw [gain_eq kf.H kf.P kf.R _ hH hR hs hr] at hK hx hP
  obtain ⟨h00, h01, h10, h11⟩ := H_entries kf.H hH
  refine ⟨kf', h, hK, ?_, ?_⟩
  · rw [hx]
    apply vec2_ext <;>
      simp only [Pi.add_apply, Pi.sub_apply, Matrix.mulVec, Matrix.dotProduct,
        Fin.sum_univ_two, h00, h01, h10, h11] <;> simp
  · rw [hP, hI]
    apply mat2_ext <;>
      simp only [Matrix.sub_apply, Matrix.mul_apply, Fin.sum_univ_two, h00, h01, h10, h11] <;>
      simp <;> ring

/-! ## Positive semi-definiteness of `P` -/

theorem psd2_one : PSD2 (1 : Matrix (Fin 2) (Fin 2) ℚ) := by
  refine ⟨?_, ?_, ?_, ?_⟩ <;> simp [Matrix.one_apply]

/-- For `a, c ≥ 0` and `b^2 ≤ a*c` the form `a*s^2 + 2*b*s*t + c*t^2` is non-negative. -/
theorem quad_nonneg (a b c s t : ℚ) (ha : 0 ≤ a) (hc : 0 ≤ c) (hd : 0 ≤ a * c - b * b) :
    0 ≤ a * (s * s) + 2 * b * (s * t) + c * (t * t) := by
  rcases eq_or_lt_of_le ha with h0 | hpos
  · have hb : b = 0 := by
      have h1 : b * b ≤ 0 := by rw [← h0] at hd; linarith
      have h2 : 0 ≤ b * b := mul_self_nonneg b
      exact mul_self_eq_zero.mp (le_antisymm h1 h2)
    rw [← h0, hb]
    have : 0 ≤ c * (t * t) := mul_nonneg hc (mul_self_nonneg t)
    linarith
  · have key : a * (a * (s * s) + 2 * b * (s * t) + c * (t * t)) =
        (a * s + b * t) * (a * s + b * t) + (a * c - b * b) * (t * t) := by ring
    have hrhs : 0 ≤ (a * s + b * t) * (a * s + b * t) + (a * c - b * b) * (t * t) :=
      add_nonneg (mul_self_nonneg _) (mul_nonneg hd (mul_self_nonneg t))
    rw [← key] at hrhs
    exact nonneg_of_mul_nonneg_right hrhs hpos

/-- The quadratic form of a `2 × 2` matrix, written out. -/
theorem quadForm_eq (P : Matrix (Fin 2) (Fin 2) ℚ) (v : Fin 2 → ℚ) :
    v ⬝ᵥ (P *ᵥ v) =
      P 0 0 * (v 0 * v 0) + (P 0 1 + P 1 0) * (v 0 * v 1) + P 1 1 * (v 1 * v 1) := by
  simp only [Matrix.dotProduct, Matrix.mulVec, Fin.sum_univ_two]
  ring

theorem psd2_quadForm (P : Matrix (Fin 2) (Fin 2) ℚ) (h : PSD2 P) (v : Fin 2 → ℚ) :
    0 ≤ v ⬝ᵥ (P *ᵥ v) := by
  obtain ⟨hsym, h00, h11, hdet⟩ := h
  rw [quadForm_eq, ← hsym]
  have hd : 0 ≤ P 0 0 * P 1 1 - P 0 1 * P 0 1 := by
    rw [← hsym] at hdet
    exact hdet
  have := quad_nonneg (P 0 0) (P 0 1) (P 1 1) (v 0) (v 1) h00 h11 hd
  linarith

theorem psd2_of (a b c d : ℚ) :
    PSD2 !![a, b; c, d] ↔ b = c ∧ 0 ≤ a ∧ 0 ≤ d ∧ 0 ≤ a * d - b * c := Iff.rfl

/-- The predict step keeps `P` symmetric positive semi-definite when `q ≥ 0`. -/
theorem predict_psd (config : kalman_config_t) (kf : kalman) (a : ℚ)
    (hq : 0 ≤ config.process_var) (hc : HasConstants config kf) (hP : PSD2 kf.P) :
    PSD2 (kalman_predict kf a).P := by
  obtain ⟨hsym, h00, h11, hdet⟩ := hP
  rw [(predict_explicit config kf a hc).2, psd2_of]
  have hd : 0 ≤ kf.P 0 0 * kf.P 1 1 - kf.P 0 1 * kf.P 0 1 := by
    rw [← hsym] at hdet
    exact hdet
  have hm : 0 ≤ kf.P 0 0 + 2 * kf.P 0 1 * config.dt + kf.P 1 1 * (config.dt * config.dt) := by
    have := quad_nonneg (kf.P 0 0) (kf.P 0 1) (kf.P 1 1) 1 config.dt h00 h11 hd
    linarith
  rw [← hsym]
  refine ⟨rfl, by linarith, by linarith, ?_⟩
  have e : (kf.P 0 0 + config.dt * kf.P 0 1 + config.dt * (kf.P 0 1 + config.dt * kf.P 1 1)
        + config.process_var) * (kf.P 1 1 + config.process_var)
        - (kf.P 0 1 + config.dt * kf.P 1 1) * (kf.P 0 1 + config.dt * kf.P 1 1) =
      (kf.P 0 0 * kf.P 1 1 - kf.P 0 1 * kf.P 0 1) +
      config.process_var *
        (kf.P 0 0 + 2 * kf.P 0 1 * config.dt + kf.P 1 1 * (config.dt * config.dt)) +
      config.process_var * kf.P 1 1 + config.process_var * config.process_var := by ring
  rw [e]
  have t1 := mul_nonneg hq hm
  have t2 := mul_nonneg hq h11
  have t3 := mul_nonneg hq hq
  linarith

/-- The correct step keeps `P` symmetric positive semi-definite when `r > 0`. -/
theorem correct_psd (config : kalman_config_t) (kf : kalman) (p : ℚ)
    (hr : 0 < config.measurement_var) (hc : HasConstants config kf) (hP : PSD2 kf.P) :
    ∃ kf', kalman_correct kf p 0 = some kf' ∧ PSD2 kf'.P := by
  obtain ⟨hsym, h00, h11, hdet⟩ := hP
  have hs : 0 < kf.P 0 0 + config.measurement_var := by linarith
  obtain ⟨kf', h, _, _, hP'⟩ := correct_explicit config kf p hc (ne_of_gt hs) (ne_of_gt hr)
  refine ⟨kf', h, ?_⟩
  rw [hP', psd2_of, ← hsym]
  have hd : 0 ≤ kf.P 0 0 * kf.P 1 1 - kf.P 0 1 * kf.P 0 1 := by
    rw [← hsym] at hdet
    exact hdet
  have hs' : kf.P 0 0 + config.measurement_var ≠ 0 := ne_of_gt hs
  refine ⟨by ring, ?_, ?_, ?_⟩
  · have e : kf.P 0 0 - kf.P 0 0 * kf.P 0 0 / (kf.P 0 0 + config.measurement_var) =
        kf.P 0 0 * config.measurement_var / (kf.P 0 0 + config.measurement_var) := by
      field_simp
      ring
    rw [e]
    exact div_nonneg (mul_nonneg h00 (le_of_lt hr)) (le_of_lt hs)
  · have e : kf.P 1 1 - kf.P 0 1 * kf.P 0 1 / (kf.P 0 0 + config.measurement_var) =
        ((kf.P 0 0 * kf.P 1 1 - kf.P 0 1 * kf.P 0 1) + config.measurement_var * kf.P 1 1) /
          (kf.P 0 0 + config.measurement_var) := by
      field_simp
      ring
    rw [e]
    exact div_nonneg (add_nonneg hd (mul_nonneg (le_of_lt hr) h11)) (le_of_lt hs)
  · have e : (kf.P 0 0 - kf.P 0 0 * kf.P 0 0 / (kf.P 0 0 + config.measurement_var)) *
          (kf.P 1 1 - kf.P 0 1 * kf.P 0 1 / (kf.P 0 0 + config.measurement_var)) -
          (kf.P 0 1 - kf.P 0 0 * kf.P 0 1 / (kf.P 0 0 + config.measurement_var)) *
          (kf.P 0 1 - kf.P 0 1 * kf.P 0 0 / (kf.P 0 0 + config.measurement_var)) =
        config.measurement_var * (kf.P 0 0 * kf.P 1 1 - kf.P 0 1 * kf.P 0 1) /
          (kf.P 0 0 + config.measurement_var) := by
      field_simp
      ring
    rw [e]
    exact div_nonneg (mul_nonneg (le_of_lt hr) hd) (le_of_lt hs)

/-! ## Invariants of a running filter -/

/-- One cycle on a filter with the constants of `config` and a symmetric positive
semi-definite `P` completes and re-establishes both. -/
theorem run_inv (config : kalman_config_t) (kf : kalman) (inp : kalman_in_t)
    (hq : 0 ≤ config.process_var) (hr : 0 < config.measurement_var)
    (hc : HasConstants config kf) (hP : PSD2 kf.P) :
    ∃ out kf', kalman_run kf inp = some (out, kf') ∧ HasConstants config kf' ∧ PSD2 kf'.P := by
  obtain ⟨kf', h, hP'⟩ := correct_psd config (kalman_predict kf inp.acc) inp.pos hr
    (predict_hasConstants config kf inp.acc hc) (predict_psd config kf inp.acc hq hc hP)
  refine ⟨⟨kf'.x 0, kf'.x 1⟩, kf', (run_eq_some_iff kf inp _ kf').mpr ⟨h, rfl⟩, ?_, hP'⟩
  exact correct_hasConstants config _ kf' inp.pos 0
    (predict_hasConstants config kf inp.acc hc) h

/-- Any number of cycles completes and keeps the invariants. -/
theorem run_all_inv (config : kalman_config_t) (hq : 0 ≤ config.process_var)
    (hr : 0 < config.measurement_var) (inputs : List kalman_in_t) :
    ∀ kf : kalman, HasConstants config kf → PSD2 kf.P →
      ∃ outs kf', run_all kf inputs = some (outs, kf') ∧ outs.length = inputs.length ∧
        HasConstants config kf' ∧ PSD2 kf'.P := by
  induction inputs with
  | nil =>
    intro kf hc hP
    exact ⟨[], kf, rfl, rfl, hc, hP⟩
  | cons inp rest ih =>
    intro kf hc hP
    obtain ⟨out, kf1, h1, hc1, hP1⟩ := run_inv config kf inp hq hr hc hP
    obtain ⟨outs, kf2, h2, hlen, hc2, hP2⟩ := ih kf1 hc1 hP1
    refine ⟨out :: outs, kf2, ?_, by simp [hlen], hc2, hP2⟩
    simp [run_all, h1, h2]

theorem create_inv (config : kalman_config_t) (init_state : kalman_out_t) :
    HasConstants config (kalman_create config init_state) ∧
    PSD2 (kalman_create config init_state).P := by
  refine ⟨create_hasConstants config init_state, ?_⟩
  rw [create_P]
  exact psd2_one

/-- The filter reached from `kalman_create` after any inputs exists and keeps
the invariants. -/
theorem reach_inv (config : kalman_config_t) (hq : 0 ≤ config.process_var)
    (hr : 0 < config.measurement_var) (init_state : kalman_out_t)
    (inputs : List kalman_in_t) :
    ∃ outs kf, run_all (kalman_create config init_state) inputs = some (outs, kf) ∧
      outs.length = inputs.length ∧ HasConstants config kf ∧ PSD2 kf.P :=
  run_all_inv config hq hr inputs _ (create_inv config init_state).1
    (create_inv config init_state).2

theorem sample_q : 0 ≤ config_sample.process_var := by
  norm_num [config_sample]

theorem sample_r : 0 < config_sample.measurement_var := by
  norm_num [config_sample]

theorem sample_det :
    (kf_sample.H * kf_sample.P * kf_sample.Hᵀ + kf_sample.R).det ≠ 0 := by
  obtain ⟨_, _, hH, _, hR, _⟩ := create_hasConstants config_sample init_sample
  rw [innov_det kf_sample.H kf_sample.P kf_sample.R _ hH hR]
  have hP : kf_sample.P = 1 := create_P config_sample init_sample
  rw [hP]
  norm_num [config_sample]

/-- The first cycle of the sample filter returns `(74/13, 47/13)`. -/
theorem sample_run :
    kalman_run kf_sample in_sample = some (⟨74 / 13, 47 / 13⟩, kf_sample_next) := by
  have hc := predict_hasConstants config_sample kf_sample in_sample.acc
    (create_hasConstants config_sample init_sample)
  have hpe := predict_explicit config_sample kf_sample in_sample.acc
    (create_hasConstants config_sample init_sample)
  have hP : kf_sample.P = 1 := create_P config_sample init_sample
  have hx : kf_sample.x = ![3, 5] := create_x config_sample init_sample
  have hP00 : (kalman_predict kf_sample in_sample.acc).P 0 0 = 11 / 2 := by
    rw [hpe.2, hP]
    norm_num [config_sample]
  have hP10 : (kalman_predict kf_sample in_sample.acc).P 1 0 = 2 := by
    rw [hpe.2, hP]
    norm_num [config_sample]
  have hx0 : (kalman_predict kf_sample in_sample.acc).x 0 = 15 := by
    rw [hpe.1, hx]
    norm_num [config_sample, in_sample]
  have hx1 : (kalman_predict kf_sample in_sample.acc).x 1 = 7 := by
    rw [hpe.1, hx]
    norm_num [config_sample, in_sample]
  obtain ⟨kf', h, _, hx', _⟩ := correct_explicit config_sample
    (kalman_predict kf_sample in_sample.acc) in_sample.pos hc
    (by rw [hP00]; norm_num [config_sample]) (by norm_num [config_sample])
  have hrun : kalman_run kf_sample in_sample = some (⟨kf'.x 0, kf'.x 1⟩, kf') :=
    (run_eq_some_iff kf_sample in_sample _ kf').mpr ⟨h, rfl⟩
  have hnext : kf_sample_next = kf' := by
    simp [kf_sample_next, hrun]
  rw [hnext, hrun, hx', hP00, hP10, hx0, hx1]
  norm_num [config_sample, in_sample]

theorem innovation_cov_eq (kf : kalman) :
    innovation_cov kf = kf.H * kf.P * kf.Hᵀ + kf.R := by
  simp [innovation_cov, m_add_eq, mmtr_mlt_eq, m_mlt_eq]

theorem quadForm_pair (P : Matrix (Fin 2) (Fin 2) ℚ) (s t : ℚ) :
    ![s, t] ⬝ᵥ (P *ᵥ ![s, t]) =
      P 0 0 * (s * s) + (P 0 1 + P 1 0) * (s * t) + P 1 1 * (t * t) := by
  rw [quadForm_eq]
  rfl

/-- A symmetric `2 × 2` matrix has a non-negative quadratic form exactly when its
diagonal and determinant are non-negative. -/
theorem quadForm_nonneg_iff (P : Matrix (Fin 2) (Fin 2) ℚ) (hsym : P 0 1 = P 1 0) :
    (∀ v : Fin 2 → ℚ, 0 ≤ v ⬝ᵥ (P *ᵥ v)) ↔ 0 ≤ P 0 0 ∧ 0 ≤ P 1 1 ∧ 0 ≤ P.det := by
  constructor
  · intro h
    have h0 := h ![1, 0]
    have h1 := h ![0, 1]
    rw [quadForm_pair] at h0 h1
    have h0' : 0 ≤ P 0 0 := by linarith
    have h1' : 0 ≤ P 1 1 := by linarith
    refine ⟨h0', h1', ?_⟩
    rw [Matrix.det_fin_two, ← hsym]
    rcases eq_or_lt_of_le h0' with hz | hpos
    · have hb : P 0 1 = 0 := by
        by_contra hne
        have h2 := h ![-(P 1 1 + 1) / (2 * P 0 1), 1]
        rw [quadForm_pair, ← hsym, ← hz] at h2
        have e : (0 : ℚ) * (-(P 1 1 + 1) / (2 * P 0 1) * (-(P 1 1 + 1) / (2 * P 0 1))) +
            (P 0 1 + P 0 1) * (-(P 1 1 + 1) / (2 * P 0 1) * 1) + P 1 1 * (1 * 1) = -1 := by
          field_simp
          ring
        rw [e] at h2
        linarith
      rw [← hz, hb]
      simp
    · have h2 := h ![P 0 1, -(P 0 0)]
      rw [quadForm_pair, ← hsym] at h2
      have e : P 0 0 * (P 0 1 * P 0 1) + (P 0 1 + P 0 1) * (P 0 1 * -(P 0 0)) +
          P 1 1 * (-(P 0 0) * -(P 0 0)) = P 0 0 * (P 0 0 * P 1 1 - P 0 1 * P 0 1) := by ring
      rw [e] at h2
      exact nonneg_of_mul_nonneg_right h2 hpos
  · rintro ⟨h00, h11, hdet⟩ v
    rw [Matrix.det_fin_two] at hdet
    exact psd2_quadForm P ⟨hsym, h00, h11, hdet⟩ v

/-! ## The specified properties of the Meschach engine -/

/-- C1: for every configuration and every initial state, the filter returned by
`kalman_create` has state vector `x = [pos, speed]` and error covariance `P`
equal to the `2 × 2` identity matrix. -/
theorem kalman_create_state (config : kalman_config_t) (init_state : kalman_out_t) :
    (kalman_create config init_state).x = ![init_state.pos, init_state.speed] ∧
    (kalman_create config init_state).P = 1 :=
  ⟨create_x config init_state, create_P config init_state⟩

/-- C2: for every configuration `(dt, q, r)` the filter returned by
`kalman_create` holds `A = [[1, dt], [0, 1]]`, `B = [[0.5*dt^2], [dt]]`,
`H = [[1, 0], [0, 0]]`, `Q = q*I` and `R = r*I`. -/
theorem kalman_create_constants (config : kalman_config_t) (init_state : kalman_out_t) :
    (kalman_create config init_state).A = !![1, config.dt; 0, 1] ∧
    (kalman_create config init_state).B = !![(1 / 2 : ℚ) * config.dt ^ 2; config.dt] ∧
    (kalman_create config init_state).H = !![1, 0; 0, 0] ∧
    (kalman_create config init_state).Q =
      config.process_var • (1 : Matrix (Fin 2) (Fin 2) ℚ) ∧
    (kalman_create config init_state).R =
      config.measurement_var • (1 : Matrix (Fin 2) (Fin 2) ℚ) := by
  obtain ⟨hA, hB, hH, hQ, hR, _⟩ := create_hasConstants config init_state
  exact ⟨hA, hB, hH, hQ, hR⟩

/-- C3: for every filter state and every acceleration `a`, `kalman_predict`
replaces `x` by `A*x + B*[a]` and `P` by `A*P*Aᵀ + Q`; with the matrices
`A = [[1, dt], [0, 1]]` and `B = [[0.5*dt^2], [dt]]` of a filter of time step
`dt`, position becomes `pos + speed*dt + 0.5*a*dt^2` and speed becomes
`speed + a*dt`. -/
theorem kalman_predict_spec (kf : kalman) (a : ℚ) :
    (kalman_predict kf a).x = kf.A *ᵥ kf.x + kf.B *ᵥ ![a] ∧
    (kalman_predict kf a).P = kf.A * kf.P * kf.Aᵀ + kf.Q ∧
    ∀ dt : ℚ, kf.A = !![1, dt; 0, 1] → kf.B = !![(1 / 2 : ℚ) * dt ^ 2; dt] →
      (kalman_predict kf a).x 0 = kf.x 0 + kf.x 1 * dt + 1 / 2 * a * dt ^ 2 ∧
      (kalman_predict kf a).x 1 = kf.x 1 + a * dt := by
  have hu : v_set_val kf.u 0 a = ![a] := by
    ext i; fin_cases i; simp [v_set_val]
  have hx : (kalman_predict kf a).x = kf.A *ᵥ kf.x + kf.B *ᵥ ![a] := by
    simp [kalman_predict, v_add_eq, mv_mlt_eq, hu]
  refine ⟨hx, ?_, ?_⟩
  · simp [kalman_predict, m_add_eq, mmtr_mlt_eq, m_mlt_eq]
  · intro dt hA hB
    constructor
    · rw [hx, hA, hB]
      simp [Matrix.mulVec, Matrix.dotProduct, Fin.sum_univ_two]
      ring
    · rw [hx, hA, hB]
      simp [Matrix.mulVec, Matrix.dotProduct, Fin.sum_univ_two, mul_comm]

/-- Witness for C3 on the sample filter (`dt = 2`, state `(3, 5)`) with
acceleration `1`: the predicted state is `(15, 7)`. -/
theorem kalman_predict_spec_witness :
    kf_sample.A = !![1, 2; 0, 1] ∧ kf_sample.B = !![(1 / 2 : ℚ) * 2 ^ 2; 2] ∧
    (kalman_predict kf_sample 1).x 0 = kf_sample.x 0 + kf_sample.x 1 * 2 + 1 / 2 * 1 * 2 ^ 2 ∧
    (kalman_predict kf_sample 1).x 1 = kf_sample.x 1 + 1 * 2 :=
  ⟨(create_hasConstants config_sample init_sample).1,
   (create_hasConstants config_sample init_sample).2.1,
   (kalman_predict_spec kf_sample 1).2.2 2
     (create_hasConstants config_sample init_sample).1
     (create_hasConstants config_sample init_sample).2.1⟩

/-- C4: for every filter state in which `S = H*P*Hᵀ + R` is invertible and every
measured position `p`, `kalman_correct(p, 0)` returns, having computed
`K = P*Hᵀ*S⁻¹` from the incoming `P`, replaced `x` by `x + K*(z - H*x)` with
`z = [p, 0]`, and replaced `P` by `(I - K*H)*P` (`I` the identity matrix held
by the filter), where `x` and `P` on the right-hand sides are the values on entry. -/
theorem kalman_correct_spec (kf : kalman) (p : ℚ)
    (hS : (kf.H * kf.P * kf.Hᵀ + kf.R).det ≠ 0) :
    ∃ kf', kalman_correct kf p 0 = some kf' ∧
      kf'.K = ⟨2, 2, kf.P * kf.Hᵀ * (kf.H * kf.P * kf.Hᵀ + kf.R)⁻¹⟩ ∧
      kf'.z = ![p, 0] ∧
      kf'.x = kf.x + (kf.P * kf.Hᵀ * (kf.H * kf.P * kf.Hᵀ + kf.R)⁻¹) *ᵥ
        (![p, 0] - kf.H *ᵥ kf.x) ∧
      kf'.P = (kf.I - kf.P * kf.Hᵀ * (kf.H * kf.P * kf.Hᵀ + kf.R)⁻¹ * kf.H) * kf.P ∧
      (kf.I = 1 →
        kf'.P = (1 - kf.P * kf.Hᵀ * (kf.H * kf.P * kf.Hᵀ + kf.R)⁻¹ * kf.H) * kf.P) := by
  obtain ⟨kf', h, hK, hz, hx, hP⟩ := correct_of_det_ne_zero kf p 0 hS
  exact ⟨kf', h, hK, hz, hx, hP, fun hI => by rw [hP, hI]⟩

/-- Witness for C4 on the freshly created sample filter (`S = [[2,0],[0,1]]`)
with measured position `4`. -/
theorem kalman_correct_spec_witness :
    (kf_sample.H * kf_sample.P * kf_sample.Hᵀ + kf_sample.R).det ≠ 0 ∧
    ∃ kf', kalman_correct kf_sample 4 0 = some kf' ∧
      kf'.K = ⟨2, 2, kf_sample.P * kf_sample.Hᵀ *
        (kf_sample.H * kf_sample.P * kf_sample.Hᵀ + kf_sample.R)⁻¹⟩ ∧
      kf'.z = ![4, 0] ∧
      kf'.x = kf_sample.x + (kf_sample.P * kf_sample.Hᵀ *
        (kf_sample.H * kf_sample.P * kf_sample.Hᵀ + kf_sample.R)⁻¹) *ᵥ
        (![4, 0] - kf_sample.H *ᵥ kf_sample.x) ∧
      kf'.P = (kf_sample.I - kf_sample.P * kf_sample.Hᵀ *
        (kf_sample.H * kf_sample.P * kf_sample.Hᵀ + kf_sample.R)⁻¹ * kf_sample.H) *
        kf_sample.P ∧
      (kf_sample.I = 1 →
        kf'.P = (1 - kf_sample.P * kf_sample.Hᵀ *
          (kf_sample.H * kf_sample.P * kf_sample.Hᵀ + kf_sample.R)⁻¹ * kf_sample.H) *
          kf_sample.P) :=
  ⟨sample_det, kalman_correct_spec kf_sample 4 sample_det⟩

/-- C7: for every configuration with `measurement_var > 0` and `process_var ≥ 0`,
every initial state and every finite sequence of inputs, `P` is symmetric
(`P[0][1] = P[1][0]`) after `kalman_create` and after every `kalman_run` call
(all of which complete), although the covariance update is the non-symmetrised
`P <- (I - K*H)*P`. -/
theorem P_symmetric (config : kalman_config_t)
    (hq : 0 ≤ config.process_var) (hr : 0 < config.measurement_var)
    (init_state : kalman_out_t) (inputs : List kalman_in_t) :
    (kalman_create config init_state).P 0 1 = (kalman_create config init_state).P 1 0 ∧
    ∃ outs kf, run_all (kalman_create config init_state) inputs = some (outs, kf) ∧
      outs.length = inputs.length ∧ kf.P 0 1 = kf.P 1 0 ∧ kf.Pᵀ = kf.P := by
  obtain ⟨outs, kf, h, hlen, _, hP⟩ := reach_inv config hq hr init_state inputs
  refine ⟨(create_inv config init_state).2.1, outs, kf, h, hlen, hP.1, ?_⟩
  apply mat2_ext <;> simp [Matrix.transpose_apply, hP.1]

/-- Witness for C7: the sample configuration and two cycles. -/
theorem P_symmetric_witness :
    0 ≤ config_sample.process_var ∧ 0 < config_sample.measurement_var ∧
    (kalman_create config_sample init_sample).P 0 1 =
      (kalman_create config_sample init_sample).P 1 0 ∧
    ∃ outs kf, run_all (kalman_create config_sample init_sample) [in_sample, ⟨7, -2⟩] =
        some (outs, kf) ∧
      outs.length = [in_sample, ⟨7, -2⟩].length ∧ kf.P 0 1 = kf.P 1 0 ∧ kf.Pᵀ = kf.P :=
  ⟨sample_q, sample_r,
    P_symmetric config_sample sample_q sample_r init_sample [in_sample, ⟨7, -2⟩]⟩

/-- C10: for every filter state and input on which `kalman_run` completes, the
matrices `A`, `B`, `H`, `Q`, `R` and the identity `I` of the filter after the
call are equal to those before the call. -/
theorem kalman_run_frame (kf : kalman) (inp : kalman_in_t) (out : kalman_out_t)
    (kf' : kalman) (h : kalman_run kf inp = some (out, kf')) :
    kf'.A = kf.A ∧ kf'.B = kf.B ∧ kf'.H = kf.H ∧ kf'.Q = kf.Q ∧ kf'.R = kf.R ∧
    kf'.I = kf.I :=
  correct_frame (kalman_predict kf inp.acc) kf' inp.pos 0
    ((run_eq_some_iff kf inp out kf').mp h).1

/-- Witness for C10: the first cycle of the sample filter, which returns
`(74/13, 47/13)`. -/
theorem kalman_run_frame_witness :
    kalman_run kf_sample in_sample = some (⟨74 / 13, 47 / 13⟩, kf_sample_next) ∧
    (kf_sample_next.A = kf_sample.A ∧ kf_sample_next.B = kf_sample.B ∧
      kf_sample_next.H = kf_sample.H ∧ kf_sample_next.Q = kf_sample.Q ∧
      kf_sample_next.R = kf_sample.R ∧ kf_sample_next.I = kf_sample.I) :=
  ⟨sample_run, kalman_run_frame kf_sample in_sample ⟨74 / 13, 47 / 13⟩ kf_sample_next sample_run⟩

end KalmanMeschach

/-! ## The scalar-measurement backend -/

namespace KalmanRefinement

open Meschach KalmanMeschach

theorem cv_create_constants (config : kalman_config_t) (init_state : kalman_out_t) :
    CvConstants config (KalmanOpencv.kalman_create config init_state).filter := by
  refine ⟨rfl, ?_, ?_, ?_, ?_⟩
  · ext i j
    fin_cases i <;> fin_cases j <;> (simp [KalmanOpencv.kalman_create]; try ring)
  · ext i j
    fin_cases i
    fin_cases j <;> simp [KalmanOpencv.kalman_create, KalmanOpencv.cvSetIdentity]
  · ext i j
    fin_cases i <;> fin_cases j <;>
      simp [KalmanOpencv.kalman_create, KalmanOpencv.cvSetIdentity]
  · ext i j
    fin_cases i
    fin_cases j
    simp [KalmanOpencv.kalman_create, KalmanOpencv.cvSetIdentity]

theorem create_sameState (config : kalman_config_t) (init_state : kalman_out_t) :
    SameState (KalmanMeschach.kalman_create config init_state)
      (KalmanOpencv.kalman_create config init_state) := by
  refine ⟨?_, ?_, ?_⟩
  · rw [create_x]
    rfl
  · rw [create_x]
    rfl
  · rw [create_P]
    apply mat2_ext <;> simp [KalmanOpencv.kalman_create, KalmanOpencv.cvSetIdentity]

theorem cv_entries (config : kalman_config_t) (f : KalmanOpencv.CvKalman)
    (hc : CvConstants config f) :
    (f.transition_matrix 0 0 = 1 ∧ f.transition_matrix 0 1 = config.dt ∧
      f.transition_matrix 1 0 = 0 ∧ f.transition_matrix 1 1 = 1) ∧
    (f.control_matrix 0 0 = 1 / 2 * config.dt ^ 2 ∧ f.control_matrix 1 0 = config.dt) ∧
    (f.measurement_matrix 0 0 = 1 ∧ f.measurement_matrix 0 1 = 0) ∧
    (f.process_noise_cov 0 0 = config.process_var ∧ f.process_noise_cov 0 1 = 0 ∧
      f.process_noise_cov 1 0 = 0 ∧ f.process_noise_cov 1 1 = config.process_var) ∧
    f.measurement_noise_cov 0 0 = config.measurement_var := by
  obtain ⟨hA, hB, hH, hQ, hR⟩ := hc
  rw [hA, hB, hH, hQ, hR]
  refine ⟨⟨rfl, rfl, rfl, rfl⟩, ⟨rfl, rfl⟩, ⟨rfl, rfl⟩, ⟨?_, ?_, ?_, ?_⟩, rfl⟩ <;> simp

theorem cv_predict_constants (config : kalman_config_t) (f : KalmanOpencv.CvKalman)
    (u : Matrix (Fin 1) (Fin 1) ℚ) (hc : CvConstants config f) :
    CvConstants config (KalmanOpencv.cvKalmanPredict f u) := hc

/-- The function `cvKalmanPredict`, entry by entry. -/
theorem cv_predict_explicit (config : kalman_config_t) (f : KalmanOpencv.CvKalman)
    (u : Matrix (Fin 1) (Fin 1) ℚ) (hc : CvConstants config f) :
    (KalmanOpencv.cvKalmanPredict f u).state_pre 0 0 =
      f.state_post 0 0 + f.state_post 1 0 * config.dt + 1 / 2 * u 0 0 * config.dt ^ 2 ∧
    (KalmanOpencv.cvKalmanPredict f u).state_pre 1 0 =
      f.state_post 1 0 + u 0 0 * config.dt ∧
    (KalmanOpencv.cvKalmanPredict f u).error_cov_pre =
      !![f.error_cov_post 0 0 + config.dt * f.error_cov_post 1 0 +
            config.dt * (f.error_cov_post 0 1 + config.dt * f.error_cov_post 1 1) +
            config.process_var,
         f.error_cov_post 0 1 + config.dt * f.error_cov_post 1 1;
         f.error_cov_post 1 0 + config.dt * f.error_cov_post 1 1,
         f.error_cov_post 1 1 + config.process_var] := by
  obtain ⟨⟨a00, a01, a10, a11⟩, ⟨b0, b1⟩, _, ⟨q00, q01, q10, q11⟩, _⟩ :=
    cv_entries config f hc
  refine ⟨?_, ?_, ?_⟩
  · simp only [KalmanOpencv.cvKalmanPredict, Matrix.add_apply, Matrix.mul_apply,
      Fin.sum_univ_two, Fin.sum_univ_one, a00, a01, b0]
    ring
  · simp only [KalmanOpencv.cvKalmanPredict, Matrix.add_apply, Matrix.mul_apply,
      Fin.sum_univ_two, Fin.sum_univ_one, a10, a11, b1]
    ring
  · apply mat2_ext <;>
      simp only [KalmanOpencv.cvKalmanPredict, Matrix.add_apply, Matrix.mul_apply,
        Matrix.transpose_apply, Fin.sum_univ_two, a00, a01, a10, a11, q00, q01, q10, q11] <;>
      simp <;> ring

/-- The function `cvKalmanCorrect`, entry by entry: its gain is built from row `0`
of the predicted covariance. -/
theorem cv_correct_explicit (config : kalman_config_t) (f : KalmanOpencv.CvKalman)
    (z : Matrix (Fin 1) (Fin 1) ℚ) (hc : CvConstants config f) :
    (KalmanOpencv.cvKalmanCorrect f z).gain =
      !![f.error_cov_pre 0 0 / (f.error_cov_pre 0 0 + config.measurement_var);
         f.error_cov_pre 0 1 / (f.error_cov_pre 0 0 + config.measurement_var)] ∧
    (KalmanOpencv.cvKalmanCorrect f z).state_post 0 0 =
      f.state_pre 0 0 + f.error_cov_pre 0 0 / (f.error_cov_pre 0 0 + config.measurement_var) *
        (z 0 0 - f.state_pre 0 0) ∧
    (KalmanOpencv.cvKalmanCorrect f z).state_post 1 0 =
      f.state_pre 1 0 + f.error_cov_pre 0 1 / (f.error_cov_pre 0 0 + config.measurement_var) *
        (z 0 0 - f.state_pre 0 0) ∧
    (KalmanOpencv.cvKalmanCorrect f z).error_cov_post =
      !![f.error_cov_pre 0 0 -
            f.error_cov_pre 0 0 / (f.error_cov_pre 0 0 + config.measurement_var) *
              f.error_cov_pre 0 0,
         f.error_cov_pre 0 1 -
            f.error_cov_pre 0 0 / (f.error_cov_pre 0 0 + config.measurement_var) *
              f.error_cov_pre 0 1;
         f.error_cov_pre 1 0 -
            f.error_cov_pre 0 1 / (f.error_cov_pre 0 0 + config.measurement_var) *
              f.error_cov_pre 0 0,
         f.error_cov_pre 1 1 -
            f.error_cov_pre 0 1 / (f.error_cov_pre 0 0 + config.measurement_var) *
              f.error_cov_pre 0 1] := by
  obtain ⟨_, _, ⟨m0, m1⟩, _, r0⟩ := cv_entries config f hc
  have hg : ∀ i : Fin 2, (KalmanOpencv.cvKalmanCorrect f z).gain i 0 =
      f.error_cov_pre 0 i / (f.error_cov_pre 0 0 + config.measurement_var) := by
    intro i
    simp only [KalmanOpencv.cvKalmanCorrect, Matrix.add_apply, Matrix.mul_apply,
      Matrix.transpose_apply, Fin.sum_univ_two, m0, m1, r0]
    simp
  refine ⟨?_, ?_, ?_, ?_⟩
  · ext i j
    fin_cases j
    fin_cases i <;> simp [hg]
  · simp only [KalmanOpencv.cvKalmanCorrect, Matrix.add_apply, Matrix.sub_apply,
      Matrix.mul_apply, Matrix.transpose_apply, Fin.sum_univ_two, Fin.sum_univ_one, m0, m1, r0]
    simp
  · simp only [KalmanOpencv.cvKalmanCorrect, Matrix.add_apply, Matrix.sub_apply,
      Matrix.mul_apply, Matrix.transpose_apply, Fin.sum_univ_two, Fin.sum_univ_one, m0, m1, r0]
    simp
  · apply mat2_ext <;>
      simp only [KalmanOpencv.cvKalmanCorrect, Matrix.add_apply, Matrix.sub_apply,
        Matrix.mul_apply, Matrix.transpose_apply, Fin.sum_univ_two, Fin.sum_univ_one,
        m0, m1, r0] <;> simp

end KalmanRefinement

/-! ## Further properties of the Meschach engine -/

namespace KalmanMeschach

open Meschach

theorem v_set_val_single (u : Fin 1 → ℚ) (a : ℚ) : v_set_val u 0 a = ![a] := by
  ext i
  fin_cases i
  simp [v_set_val]

/-- The predict step reads only `A`, `B`, `Q`, `x`, `P`; it leaves `K` and `z`
alone and overwrites everything else it touches. -/
theorem predict_congr (kf1 kf2 : kalman) (a : ℚ)
    (hx : kf1.x = kf2.x) (hP : kf1.P = kf2.P) (hA : kf1.A = kf2.A) (hB : kf1.B = kf2.B)
    (hH : kf1.H = kf2.H) (hQ : kf1.Q = kf2.Q) (hR : kf1.R = kf2.R) (hI : kf1.I = kf2.I) :
    kalman_predict kf1 a = { kalman_predict kf2 a with K := kf1.K, z := kf1.z } := by
  cases kf1
  cases kf2
  simp only at hx hP hA hB hH hQ hR hI
  subst hx hP hA hB hH hQ hR hI
  simp [kalman_predict, v_set_val_single]

/-- The correct step reads only `H`, `R`, `I`, `x`, `P`. -/
theorem correct_congr (kf1 kf2 : kalman) (p v : ℚ)
    (hx : kf1.x = kf2.x) (hP : kf1.P = kf2.P) (hA : kf1.A = kf2.A) (hB : kf1.B = kf2.B)
    (hH : kf1.H = kf2.H) (hQ : kf1.Q = kf2.Q) (hR : kf1.R = kf2.R) (hI : kf1.I = kf2.I)
    (hu : kf1.u = kf2.u) :
    kalman_correct kf1 p v = kalman_correct kf2 p v := by
  cases kf1
  cases kf2
  simp only at hx hP hA hB hH hQ hR hI hu
  subst hx hP hA hB hH hQ hR hI hu
  simp only [kalman_correct, v_set_val_pair]

/-- One cycle depends on the filter only through `x`, `P` and the constants. -/
theorem run_congr (kf1 kf2 : kalman) (inp : kalman_in_t)
    (hx : kf1.x = kf2.x) (hP : kf1.P = kf2.P) (hA : kf1.A = kf2.A) (hB : kf1.B = kf2.B)
    (hH : kf1.H = kf2.H) (hQ : kf1.Q = kf2.Q) (hR : kf1.R = kf2.R) (hI : kf1.I = kf2.I) :
    kalman_run kf1 inp = kalman_run kf2 inp := by
  have h := predict_congr kf1 kf2 inp.acc hx hP hA hB hH hQ hR hI
  have hc : kalman_correct (kalman_predict kf1 inp.acc) inp.pos 0 =
      kalman_correct (kalman_predict kf2 inp.acc) inp.pos 0 := by
    apply correct_congr <;> rw [h]
  simp only [kalman_run, hc]

/-- C11: for any two filter values that agree on `x`, `P` and the constants `A`,
`B`, `H`, `Q`, `R`, `I` but differ arbitrarily in the stored gain `K`, the
vectors `z`, `u` and the temporaries `t0`, `t1`, `T0`, `T1`, `kalman_run` on the
same input returns the same output and leaves the same `x` and `P` (indeed the
same filter, or aborts on both): the working values are overwritten before use. -/
theorem working_values_carry_no_state (kf1 kf2 : kalman) (inp : kalman_in_t)
    (hx : kf1.x = kf2.x) (hP : kf1.P = kf2.P) (hA : kf1.A = kf2.A) (hB : kf1.B = kf2.B)
    (hH : kf1.H = kf2.H) (hQ : kf1.Q = kf2.Q) (hR : kf1.R = kf2.R) (hI : kf1.I = kf2.I) :
    kalman_run kf1 inp = kalman_run kf2 inp ∧
    (kalman_run kf1 inp).map (fun r => r.1) = (kalman_run kf2 inp).map (fun r => r.1) ∧
    (kalman_run kf1 inp).map (fun r => r.2.x) = (kalman_run kf2 inp).map (fun r => r.2.x) ∧
    (kalman_run kf1 inp).map (fun r => r.2.P) = (kalman_run kf2 inp).map (fun r => r.2.P) := by
  have h := run_congr kf1 kf2 inp hx hP hA hB hH hQ hR hI
  rw [h]
  exact ⟨rfl, rfl, rfl, rfl⟩

/-- Witness for C11: the sample filter and a copy with different `K`, `z`, `u`,
`t0`, `t1`, `T0`, `T1`, on the sample input. -/
theorem working_values_carry_no_state_witness :
    kf_sample.x = kf_sample_scrambled.x ∧ kf_sample.P = kf_sample_scrambled.P ∧
    kf_sample.A = kf_sample_scrambled.A ∧ kf_sample.B = kf_sample_scrambled.B ∧
    kf_sample.H = kf_sample_scrambled.H ∧ kf_sample.Q = kf_sample_scrambled.Q ∧
    kf_sample.R = kf_sample_scrambled.R ∧ kf_sample.I = kf_sample_scrambled.I ∧
    (kalman_run kf_sample in_sample = kalman_run kf_sample_scrambled in_sample ∧
    (kalman_run kf_sample in_sample).map (fun r => r.1) =
      (kalman_run kf_sample_scrambled in_sample).map (fun r => r.1) ∧
    (kalman_run kf_sample in_sample).map (fun r => r.2.x) =
      (kalman_run kf_sample_scrambled in_sample).map (fun r => r.2.x) ∧
    (kalman_run kf_sample in_sample).map (fun r => r.2.P) =
      (kalman_run kf_sample_scrambled in_sample).map (fun r => r.2.P)) :=
  ⟨rfl, rfl, rfl, rfl, rfl, rfl, rfl, rfl,
    working_values_carry_no_state kf_sample kf_sample_scrambled in_sample
      rfl rfl rfl rfl rfl rfl rfl rfl⟩

/-! ## The trace of `P` -/

/-- The trace of the corrected covariance, for a filter with the constants of
`config` and `P00 + r ≠ 0`, `r ≠ 0`. -/
theorem correct_trace (config : kalman_config_t) (kf : kalman) (p : ℚ)
    (hc : HasConstants config kf) (hs : kf.P 0 0 + config.measurement_var ≠ 0)
    (hr : config.measurement_var ≠ 0) :
    ∃ kf', kalman_correct kf p 0 = some kf' ∧
      kf'.P.trace = kf.P.trace -
        (kf.P 0 0 * kf.P 0 0 + kf.P 1 0 * kf.P 0 1) / (kf.P 0 0 + config.measurement_var) := by
  obtain ⟨kf', h, _, _, hP'⟩ := correct_explicit config kf p hc hs hr
  refine ⟨kf', h, ?_⟩
  rw [Matrix.trace_fin_two, Matrix.trace_fin_two, hP']
  simp only [Matrix.of_apply, Matrix.cons_val_zero, Matrix.cons_val_one, Matrix.head_cons]
  field_simp
  ring

/-- The correct step does not increase the trace of a symmetric positive
semi-definite `P` when `r > 0`. -/
theorem correct_trace_le (config : kalman_config_t) (kf : kalman) (p : ℚ)
    (hr : 0 < config.measurement_var) (hc : HasConstants config kf) (hP : PSD2 kf.P) :
    ∃ kf', kalman_correct kf p 0 = some kf' ∧ kf'.P.trace ≤ kf.P.trace := by
  obtain ⟨hsym, h00, _, _⟩ := hP
  have hs : 0 < kf.P 0 0 + config.measurement_var := by linarith
  obtain ⟨kf', h, htr⟩ := correct_trace config kf p hc (ne_of_gt hs) (ne_of_gt hr)
  refine ⟨kf', h, ?_⟩
  rw [htr, ← hsym]
  have hnum : 0 ≤ kf.P 0 0 * kf.P 0 0 + kf.P 0 1 * kf.P 0 1 :=
    add_nonneg (mul_self_nonneg _) (mul_self_nonneg _)
  have := div_nonneg hnum (le_of_lt hs)
  linarith

theorem sample_psd (v : Fin 2 → ℚ) : 0 ≤ v ⬝ᵥ (kf_sample.P *ᵥ v) :=
  psd2_quadForm _ (create_inv config_sample init_sample).2 v

/-- C13: for every filter state whose `P` is symmetric positive semi-definite
and every `measurement_var > 0`, the correct step completes and does not
increase the trace of `P`, for every measured position. -/
theorem correct_does_not_increase_trace (config : kalman_config_t) (kf : kalman) (p : ℚ)
    (hr : 0 < config.measurement_var) (hc : HasConstants config kf)
    (hsym : kf.P 0 1 = kf.P 1 0) (hpsd : ∀ v : Fin 2 → ℚ, 0 ≤ v ⬝ᵥ (kf.P *ᵥ v)) :
    ∃ kf', kalman_correct kf p 0 = some kf' ∧ kf'.P.trace ≤ kf.P.trace := by
  obtain ⟨h00, h11, hdet⟩ := (quadForm_nonneg_iff kf.P hsym).mp hpsd
  rw [Matrix.det_fin_two] at hdet
  exact correct_trace_le config kf p hr hc ⟨hsym, h00, h11, hdet⟩

/-- Witness for C13: the freshly created sample filter (`P = I`, `r = 1`) and
measured position `4`. -/
theorem correct_does_not_increase_trace_witness :
    0 < config_sample.measurement_var ∧ HasConstants config_sample kf_sample ∧
    kf_sample.P 0 1 = kf_sample.P 1 0 ∧
    (∀ v : Fin 2 → ℚ, 0 ≤ v ⬝ᵥ (kf_sample.P *ᵥ v)) ∧
    ∃ kf', kalman_correct kf_sample 4 0 = some kf' ∧ kf'.P.trace ≤ kf_sample.P.trace :=
  ⟨sample_r, create_hasConstants config_sample init_sample,
    (create_inv config_sample init_sample).2.1, sample_psd,
    correct_does_not_increase_trace config_sample kf_sample 4 sample_r
      (create_hasConstants config_sample init_sample)
      (create_inv config_sample init_sample).2.1 sample_psd⟩

theorem predict_n_constants (kf : kalman) (a : ℚ) (n : ℕ) :
    (predict_n kf a n).A = kf.A ∧ (predict_n kf a n).B = kf.B := by
  induction n with
  | zero => exact ⟨rfl, rfl⟩
  | succ k ih => exact ih

/-- One predict step with acceleration `0`, by components. -/
theorem predict_zero_acc (kf : kalman) (dt : ℚ)
    (hA : kf.A = !![1, dt; 0, 1]) (hB : kf.B = !![(1 / 2 : ℚ) * dt ^ 2; dt]) :
    (kalman_predict kf 0).x 0 = kf.x 0 + kf.x 1 * dt ∧ (kalman_predict kf 0).x 1 = kf.x 1 := by
  obtain ⟨a00, a01, a10, a11⟩ := A_entries kf.A dt hA
  obtain ⟨b0, b1⟩ := B_entries kf.B dt hB
  constructor
  · simp only [kalman_predict, v_add, mv_mlt, v_set_val, Fin.sum_univ_two, Fin.sum_univ_one,
      a00, a01, b0]
    simp
    ring
  · simp only [kalman_predict, v_add, mv_mlt, v_set_val, Fin.sum_univ_two, Fin.sum_univ_one,
      a10, a11, b1]
    simp

/-- C14: for every filter state with `x = (p, v)` and the matrices `A`, `B` of a
configuration with time step `dt`, and every `n ≥ 0`, applying only the predict
phase `n` times with acceleration `0` yields `x = (p + n*v*dt, v)`: each step
advances position by `speed*dt` and leaves speed unchanged. -/
theorem predict_only_kinematics (kf : kalman) (dt : ℚ) (n : ℕ)
    (hA : kf.A = !![1, dt; 0, 1]) (hB : kf.B = !![(1 / 2 : ℚ) * dt ^ 2; dt]) :
    (predict_n kf 0 n).x = ![kf.x 0 + n * kf.x 1 * dt, kf.x 1] ∧
    (predict_n kf 0 (n + 1)).x 0 = (predict_n kf 0 n).x 0 + (predict_n kf 0 n).x 1 * dt ∧
    (predict_n kf 0 (n + 1)).x 1 = (predict_n kf 0 n).x 1 := by
  have hstep : ∀ k : ℕ,
      (predict_n kf 0 (k + 1)).x 0 = (predict_n kf 0 k).x 0 + (predict_n kf 0 k).x 1 * dt ∧
      (predict_n kf 0 (k + 1)).x 1 = (predict_n kf 0 k).x 1 := by
    intro k
    obtain ⟨hAk, hBk⟩ := predict_n_constants kf 0 k
    exact predict_zero_acc (predict_n kf 0 k) dt (hAk.trans hA) (hBk.trans hB)
  have hall : ∀ k : ℕ, (predict_n kf 0 k).x 0 = kf.x 0 + k * kf.x 1 * dt ∧
      (predict_n kf 0 k).x 1 = kf.x 1 := by
    intro k
    induction k with
    | zero => exact ⟨by simp [predict_n], rfl⟩
    | succ j ih =>
      obtain ⟨h0, h1⟩ := hstep j
      refine ⟨?_, by rw [h1, ih.2]⟩
      rw [h0, ih.1, ih.2]
      push_cast
      ring
  refine ⟨?_, hstep n⟩
  apply vec2_ext
  · rw [(hall n).1]
    rfl
  · rw [(hall n).2]
    rfl

/-- Witness for C14: the sample filter (`dt = 2`, state `(3, 5)`), `4` predict
steps: position `3 + 4*5*2 = 43`. -/
theorem predict_only_kinematics_witness :
    kf_sample.A = !![1, 2; 0, 1] ∧ kf_sample.B = !![(1 / 2 : ℚ) * 2 ^ 2; 2] ∧
    ((predict_n kf_sample 0 4).x = ![kf_sample.x 0 + (4 : ℕ) * kf_sample.x 1 * 2, kf_sample.x 1] ∧
    (predict_n kf_sample 0 (4 + 1)).x 0 =
      (predict_n kf_sample 0 4).x 0 + (predict_n kf_sample 0 4).x 1 * 2 ∧
    (predict_n kf_sample 0 (4 + 1)).x 1 = (predict_n kf_sample 0 4).x 1) :=
  ⟨(create_hasConstants config_sample init_sample).1,
   (create_hasConstants config_sample init_sample).2.1,
   predict_only_kinematics kf_sample 2 4
     (create_hasConstants config_sample init_sample).1
     (create_hasConstants config_sample init_sample).2.1⟩

/-! ## Measurements that equal the filter's own prediction -/

/-- With `measurement_var = 0` the matrix handed to `m_inverse` is
`[[P00, 0], [0, 0]]`, which is singular, and the cycle aborts: on every filter
that holds the constants of the configuration, on every input. -/
theorem run_none_of_zero_measurement_var (config : kalman_config_t)
    (hr0 : config.measurement_var = 0) (kf : kalman) (hc : HasConstants config kf)
    (inp : kalman_in_t) :
    innovation_cov (kalman_predict kf inp.acc) = !![(kalman_predict kf inp.acc).P 0 0, 0; 0, 0] ∧
    (innovation_cov (kalman_predict kf inp.acc)).det = 0 ∧
    kalman_run kf inp = none := by
  have hc' := predict_hasConstants config kf inp.acc hc
  have hS : innovation_cov (kalman_predict kf inp.acc) =
      !![(kalman_predict kf inp.acc).P 0 0, 0; 0, 0] := by
    rw [innovation_cov_eq, innov_eq _ _ _ _ hc'.2.2.1 hc'.2.2.2.2.1, hr0]
    simp
  have hdet : (innovation_cov (kalman_predict kf inp.acc)).det = 0 := by
    rw [innovation_cov_eq, innov_det _ _ _ _ hc'.2.2.1 hc'.2.2.2.2.1, hr0]
    simp
  refine ⟨hS, hdet, ?_⟩
  have hcor : kalman_correct (kalman_predict kf inp.acc) inp.pos 0 = none := by
    rw [correct_eq_none_iff, ← innovation_cov_eq]
    exact hdet
  simp [kalman_run, hcor]

/-- The first cycle under `config_invalid` completes. -/
theorem invalid_first_run :
    ∃ out kf', kalman_run (kalman_create config_invalid init_sample) in_sample =
      some (out, kf') := by
  have hc := create_hasConstants config_invalid init_sample
  have hpe := (predict_explicit config_invalid (kalman_create config_invalid init_sample)
    in_sample.acc hc).2
  rw [create_P] at hpe
  have e00 : (kalman_predict (kalman_create config_invalid init_sample) in_sample.acc).P 0 0 =
      3 / 2 := by
    rw [hpe]
    norm_num [config_invalid]
  obtain ⟨kf', h, _⟩ := correct_explicit config_invalid
    (kalman_predict (kalman_create config_invalid init_sample) in_sample.acc) in_sample.pos
    (predict_hasConstants _ _ _ hc)
    (by rw [e00]; norm_num [config_invalid]) (by norm_num [config_invalid])
  exact ⟨⟨kf'.x 0, kf'.x 1⟩, kf', (run_eq_some_iff _ _ _ kf').mpr ⟨h, rfl⟩⟩

/-- C17 fails as stated: for `dt = -1`, `q = -1/2`, `r = -1/4` (all three outside
the documented ranges) `kalman_create` signals nothing and returns a filter, with
`A = [[1, -1], [0, 1]]` and `Q = -1/2 * I`, on which `kalman_run` goes on to
produce an output. -/
theorem create_accepts_invalid_config :
    config_invalid.dt ≤ 0 ∧ config_invalid.process_var < 0 ∧
    config_invalid.measurement_var < 0 ∧
    kalman_create_result config_invalid init_sample =
      some (kalman_create config_invalid init_sample) ∧
    (kalman_create config_invalid init_sample).A = !![1, -1; 0, 1] ∧
    (kalman_create config_invalid init_sample).Q =
      (-1 / 2 : ℚ) • (1 : Matrix (Fin 2) (Fin 2) ℚ) ∧
    ∃ out kf', kalman_run (kalman_create config_invalid init_sample) in_sample =
      some (out, kf') :=
  ⟨by norm_num [config_invalid], by norm_num [config_invalid], by norm_num [config_invalid],
    rfl, (create_hasConstants config_invalid init_sample).1,
    (create_hasConstants config_invalid init_sample).2.2.2.1, invalid_first_run⟩

/-- C17, amended: `kalman_create` validates nothing: for every configuration,
valid or not, it returns a filter built from the given values
(`A = [[1, dt], [0, 1]]`, `B = [[0.5*dt^2], [dt]]`, `Q = q*I`, `R = r*I`,
`x = [pos, speed]`, `P = I`) and signals no error. -/
theorem create_never_rejects (config : kalman_config_t) (init_state : kalman_out_t) :
    ∃ kf, kalman_create_result config init_state = some kf ∧
      kf.A = !![1, config.dt; 0, 1] ∧
      kf.B = !![(1 / 2 : ℚ) * config.dt ^ 2; config.dt] ∧
      kf.Q = config.process_var • (1 : Matrix (Fin 2) (Fin 2) ℚ) ∧
      kf.R = config.measurement_var • (1 : Matrix (Fin 2) (Fin 2) ℚ) ∧
      kf.x = ![init_state.pos, init_state.speed] ∧ kf.P = 1 := by
  obtain ⟨hA, hB, _, hQ, hR, _⟩ := create_hasConstants config init_state
  exact ⟨kalman_create config init_state, rfl, hA, hB, hQ, hR,
    create_x config init_state, create_P config init_state⟩

end KalmanMeschach

namespace KalmanRefinement

open Meschach KalmanMeschach

/-- The OpenCV-backed filter under `config_zero_r`: the first cycle on the sample
input returns `(4, 15/4)`. -/
theorem cv_zero_r_first_run :
    (KalmanOpencv.kalman_run (KalmanOpencv.kalman_create config_zero_r init_sample)
      in_sample).1 = ⟨4, 15 / 4⟩ := by
  have hco := cv_create_constants config_zero_r init_sample
  obtain ⟨hs0, hs1, hsP⟩ := create_sameState config_zero_r init_sample
  rw [create_x] at hs0 hs1
  rw [create_P] at hsP
  obtain ⟨c0, c1, cP⟩ := cv_predict_explicit config_zero_r
    (KalmanOpencv.kalman_create config_zero_r init_sample).filter !![in_sample.acc] hco
  obtain ⟨_, d0, d1, _⟩ := cv_correct_explicit config_zero_r
    (KalmanOpencv.cvKalmanPredict (KalmanOpencv.kalman_create config_zero_r init_sample).filter
      !![in_sample.acc]) !![in_sample.pos] (cv_predict_constants _ _ _ hco)
  rw [← hs0, ← hs1] at c0
  rw [← hs1] at c1
  rw [← hsP] at cP
  have hrun : (KalmanOpencv.kalman_run (KalmanOpencv.kalman_create config_zero_r init_sample)
      in_sample).1 =
      ⟨(KalmanOpencv.cvKalmanCorrect (KalmanOpencv.cvKalmanPredict
          (KalmanOpencv.kalman_create config_zero_r init_sample).filter !![in_sample.acc])
          !![in_sample.pos]).state_post 0 0,
       (KalmanOpencv.cvKalmanCorrect (KalmanOpencv.cvKalmanPredict
          (KalmanOpencv.kalman_create config_zero_r init_sample).filter !![in_sample.acc])
          !![in_sample.pos]).state_post 1 0⟩ := rfl
  rw [hrun, d0, d1, c0, c1, cP]
  norm_num [config_zero_r, in_sample, init_sample]

/-- C16 fails on the code: with `dt = 1`, `q = 0`, `r = 0` the first `kalman_run`
of `kalman_meschach.c` hands `S = [[2, 0], [0, 0]]` to `m_inverse`, which is
singular, and aborts; the scalar-measurement filter of `kalman_opencv.c`
returns `(4, 15/4)` on the same input. -/
theorem zero_measurement_var_aborts :
    0 < config_zero_r.dt ∧ 0 ≤ config_zero_r.process_var ∧
    config_zero_r.measurement_var = 0 ∧
    innovation_cov (kalman_predict (KalmanMeschach.kalman_create config_zero_r init_sample)
      in_sample.acc) = !![2, 0; 0, 0] ∧
    (innovation_cov (kalman_predict (KalmanMeschach.kalman_create config_zero_r init_sample)
      in_sample.acc)).det = 0 ∧
    KalmanMeschach.kalman_run (KalmanMeschach.kalman_create config_zero_r init_sample)
      in_sample = none ∧
    (KalmanOpencv.kalman_run (KalmanOpencv.kalman_create config_zero_r init_sample)
      in_sample).1 = ⟨4, 15 / 4⟩ := by
  obtain ⟨hS, hdet, hrun⟩ := run_none_of_zero_measurement_var config_zero_r rfl
    (KalmanMeschach.kalman_create config_zero_r init_sample)
    (create_hasConstants config_zero_r init_sample) in_sample
  have hpe := (predict_explicit config_zero_r
    (KalmanMeschach.kalman_create config_zero_r init_sample) in_sample.acc
    (create_hasConstants config_zero_r init_sample)).2
  rw [create_P] at hpe
  have e00 : (kalman_predict (KalmanMeschach.kalman_create config_zero_r init_sample)
      in_sample.acc).P 0 0 = 2 := by
    rw [hpe]
    norm_num [config_zero_r]
  rw [e00] at hS
  exact ⟨by norm_num [config_zero_r], by norm_num [config_zero_r], rfl, hS, hdet, hrun,
    cv_zero_r_first_run⟩

end KalmanRefinement

/-! ## Convergence on a constant measurement with `process_var = 0` -/

namespace KalmanMeschach

open Meschach

theorem cf_den_pos (dt r : ℚ) (hr : 0 < r) (n : ℕ) : 0 < cf_den dt r n := by
  unfold cf_den
  have h1 : 0 ≤ r * (n : ℚ) := by positivity
  have h2 : 0 ≤ dt ^ 2 * r * ((n : ℚ) * ((n : ℚ) + 1) * (2 * (n : ℚ) + 1) / 6) := by positivity
  have h3 : 0 ≤ dt ^ 2 * (n : ℚ) ^ 2 * ((n : ℚ) ^ 2 - 1) / 12 := by
    rcases Nat.eq_zero_or_pos n with h0 | hpos
    · subst h0
      simp
    · have hn : (1 : ℚ) ≤ n := by exact_mod_cast hpos
      have : 0 ≤ (n : ℚ) ^ 2 - 1 := by nlinarith
      positivity
  have h4 : 0 < r ^ 2 := by positivity
  linarith

theorem cf_al_succ (r N : ℚ) : cf_al r (N + 1) = cf_al r N + 1 := by
  unfold cf_al
  ring

theorem cf_be_succ (dt r N : ℚ) : cf_be dt r (N + 1) = cf_be dt r N + dt * cf_al r N := by
  unfold cf_be cf_al
  ring

theorem cf_de_succ (dt r N : ℚ) :
    cf_de dt r (N + 1) = cf_de dt r N + 2 * dt * cf_be dt r N + dt ^ 2 * cf_al r N := by
  unfold cf_de cf_be cf_al
  ring

theorem cf_den_succ (dt r N : ℚ) :
    cf_den dt r (N + 1) =
      cf_den dt r N + (cf_de dt r N + 2 * dt * cf_be dt r N + dt ^ 2 * cf_al r N) := by
  unfold cf_den cf_de cf_be cf_al
  ring

theorem cf_den_det (dt r N : ℚ) :
    cf_den dt r N =
      cf_al r N * (cf_de dt r N + 2 * dt * cf_be dt r N + dt ^ 2 * cf_al r N) -
        (cf_be dt r N + dt * cf_al r N) * (cf_be dt r N + dt * cf_al r N) := by
  unfold cf_den cf_de cf_be cf_al
  ring

theorem cf_n0_succ (dt r e0 e1 N : ℚ) :
    cf_n0 dt r e0 e1 (N + 1) = cf_n0 dt r e0 e1 N + dt * cf_n1 dt r e0 e1 N := by
  unfold cf_n0 cf_n1
  ring

theorem cf_n1_rel (dt r e0 e1 N : ℚ) :
    cf_n1 dt r e0 e1 N * (cf_de dt r N + 2 * dt * cf_be dt r N + dt ^ 2 * cf_al r N) -
        (cf_be dt r N + dt * cf_al r N) * (cf_n0 dt r e0 e1 N + dt * cf_n1 dt r e0 e1 N) =
      (cf_n1 dt r e0 e1 (N + 1) - cf_n1 dt r e0 e1 N) * cf_den dt r N := by
  unfold cf_n1 cf_n0 cf_den cf_de cf_be cf_al
  ring

/-- The algebra of one correct step on values with common denominator `D`. -/
theorem step_abstract (r D D2 m00 m01 al c n0 n1 n1' : ℚ) (hr : r ≠ 0) (hD : D ≠ 0)
    (hD2 : D2 ≠ 0) (hrel : D2 = D + m00) (hdet : D = al * m00 - m01 * m01)
    (hn1 : n1 * m00 - m01 * n0 = (n1' - n1) * D) :
    r * m00 / D - (r * m00 / D) * (r * m00 / D) / (r * D2 / D) = r * m00 / D2 ∧
    r * m01 / D - (r * m00 / D) * (r * m01 / D) / (r * D2 / D) = r * m01 / D2 ∧
    r * al / D - (r * m01 / D) * (r * m01 / D) / (r * D2 / D) = r * (al + 1) / D2 ∧
    (c + r * n0 / D) + (r * m00 / D) / (r * D2 / D) * (c - (c + r * n0 / D)) =
      c + r * n0 / D2 ∧
    r * n1 / D + (r * m01 / D) / (r * D2 / D) * (c - (c + r * n0 / D)) = r * n1' / D2 := by
  refine ⟨?_, ?_, ?_, ?_, ?_⟩
  · field_simp
    rw [hrel]
    ring
  · field_simp
    rw [hrel]
    ring
  · field_simp
    rw [hrel]
    subst hdet
    ring
  · field_simp
    rw [hrel]
    ring
  · field_simp
    rw [hrel]
    linear_combination (r * r * D * (D + m00)) * hn1

/-- One cycle with `q = 0`, acceleration `0` and measurement `c` takes a filter
in the closed form at `n` to the closed form at `n + 1`. -/
theorem closed_form_step (config : kalman_config_t) (hq : config.process_var = 0)
    (hr : 0 < config.measurement_var) (kf : kalman) (c e0 e1 : ℚ) (n : ℕ)
    (hc : HasConstants config kf)
    (hP : kf.P = cf_P config.dt config.measurement_var n)
    (hx0 : kf.x 0 = cf_pos config.dt config.measurement_var e0 e1 c n)
    (hx1 : kf.x 1 = cf_speed config.dt config.measurement_var e0 e1 n) :
    ∃ kf', kalman_run kf ⟨c, 0⟩ = some (⟨kf'.x 0, kf'.x 1⟩, kf') ∧
      HasConstants config kf' ∧
      kf'.P = cf_P config.dt config.measurement_var ((n + 1 : ℕ) : ℚ) ∧
      kf'.x 0 = cf_pos config.dt config.measurement_var e0 e1 c ((n + 1 : ℕ) : ℚ) ∧
      kf'.x 1 = cf_speed config.dt config.measurement_var e0 e1 ((n + 1 : ℕ) : ℚ) := by
  have hcast : ((n + 1 : ℕ) : ℚ) = (n : ℚ) + 1 := by push_cast; ring
  have hD : cf_den config.dt config.measurement_var n ≠ 0 :=
    ne_of_gt (cf_den_pos config.dt config.measurement_var hr n)
  have hD2 : cf_den config.dt config.measurement_var ((n : ℚ) + 1) ≠ 0 := by
    rw [← hcast]
    exact ne_of_gt (cf_den_pos config.dt config.measurement_var hr (n + 1))
  have hr' : config.measurement_var ≠ 0 := ne_of_gt hr
  have hc' := predict_hasConstants config kf 0 hc
  obtain ⟨hpx, hpP⟩ := predict_explicit config kf 0 hc
  have p00 : kf.P 0 0 = config.measurement_var * cf_de config.dt config.measurement_var n /
      cf_den config.dt config.measurement_var n := by rw [hP]; rfl
  have p01 : kf.P 0 1 = config.measurement_var * cf_be config.dt config.measurement_var n /
      cf_den config.dt config.measurement_var n := by rw [hP]; rfl
  have p10 : kf.P 1 0 = config.measurement_var * cf_be config.dt config.measurement_var n /
      cf_den config.dt config.measurement_var n := by rw [hP]; rfl
  have p11 : kf.P 1 1 = config.measurement_var * cf_al config.measurement_var n /
      cf_den config.dt config.measurement_var n := by rw [hP]; rfl
  have m00 : (kalman_predict kf 0).P 0 0 = config.measurement_var *
      (cf_de config.dt config.measurement_var n +
        2 * config.dt * cf_be config.dt config.measurement_var n +
        config.dt ^ 2 * cf_al config.measurement_var n) /
      cf_den config.dt config.measurement_var n := by
    rw [hpP]
    show kf.P 0 0 + config.dt * kf.P 1 0 + config.dt * (kf.P 0 1 + config.dt * kf.P 1 1) +
      config.process_var = _
    rw [p00, p01, p10, p11, hq]
    field_simp
    ring
  have m01 : (kalman_predict kf 0).P 0 1 = config.measurement_var *
      (cf_be config.dt config.measurement_var n + config.dt * cf_al config.measurement_var n) /
      cf_den config.dt config.measurement_var n := by
    rw [hpP]
    show kf.P 0 1 + config.dt * kf.P 1 1 = _
    rw [p01, p11]
    field_simp
    ring
  have m10 : (kalman_predict kf 0).P 1 0 = config.measurement_var *
      (cf_be config.dt config.measurement_var n + config.dt * cf_al config.measurement_var n) /
      cf_den config.dt config.measurement_var n := by
    rw [hpP]
    show kf.P 1 0 + config.dt * kf.P 1 1 = _
    rw [p10, p11]
    field_simp
    ring
  have m11 : (kalman_predict kf 0).P 1 1 = config.measurement_var *
      cf_al config.measurement_var n / cf_den config.dt config.measurement_var n := by
    rw [hpP]
    show kf.P 1 1 + config.process_var = _
    rw [p11, hq, add_zero]
  have xm0 : (kalman_predict kf 0).x 0 = c + config.measurement_var *
      (cf_n0 config.dt config.measurement_var e0 e1 n +
        config.dt * cf_n1 config.dt config.measurement_var e0 e1 n) /
      cf_den config.dt config.measurement_var n := by
    rw [hpx]
    show kf.x 0 + kf.x 1 * config.dt + 1 / 2 * 0 * config.dt ^ 2 = _
    rw [hx0, hx1, cf_pos, cf_speed]
    field_simp
    ring
  have xm1 : (kalman_predict kf 0).x 1 = config.measurement_var *
      cf_n1 config.dt config.measurement_var e0 e1 n /
      cf_den config.dt config.measurement_var n := by
    rw [hpx]
    show kf.x 1 + 0 * config.dt = _
    rw [hx1, cf_speed]
    ring
  have hS : (kalman_predict kf 0).P 0 0 + config.measurement_var =
      config.measurement_var * cf_den config.dt config.measurement_var ((n : ℚ) + 1) /
        cf_den config.dt config.measurement_var n := by
    rw [m00, cf_den_succ]
    field_simp
    ring
  have hs : (kalman_predict kf 0).P 0 0 + config.measurement_var ≠ 0 := by
    rw [hS]
    exact div_ne_zero (mul_ne_zero hr' hD2) hD
  obtain ⟨kf', hcor, _, hx', hP'⟩ := correct_explicit config (kalman_predict kf 0) c hc' hs hr'
  obtain ⟨s1, s2, s3, s4, s5⟩ := step_abstract config.measurement_var
    (cf_den config.dt config.measurement_var n)
    (cf_den config.dt config.measurement_var ((n : ℚ) + 1))
    (cf_de config.dt config.measurement_var n +
      2 * config.dt * cf_be config.dt config.measurement_var n +
      config.dt ^ 2 * cf_al config.measurement_var n)
    (cf_be config.dt config.measurement_var n + config.dt * cf_al config.measurement_var n)
    (cf_al config.measurement_var n) c
    (cf_n0 config.dt config.measurement_var e0 e1 n +
      config.dt * cf_n1 config.dt config.measurement_var e0 e1 n)
    (cf_n1 config.dt config.measurement_var e0 e1 n)
    (cf_n1 config.dt config.measurement_var e0 e1 ((n : ℚ) + 1))
    hr' hD hD2 (cf_den_succ _ _ _) (cf_den_det _ _ _) (cf_n1_rel _ _ _ _ _)
  rw [hS, m00, m01, m10, m11] at hP'
  rw [hS, m00, m10, xm0, xm1] at hx'
  rw [mul_comm (config.measurement_var *
      (cf_be config.dt config.measurement_var n + config.dt * cf_al config.measurement_var n) /
      cf_den config.dt config.measurement_var n)
      (config.measurement_var *
      (cf_de config.dt config.measurement_var n +
        2 * config.dt * cf_be config.dt config.measurement_var n +
        config.dt ^ 2 * cf_al config.measurement_var n) /
      cf_den config.dt config.measurement_var n), s1, s2, s3] at hP'
  rw [s4, s5] at hx'
  refine ⟨kf', (run_eq_some_iff kf _ _ kf').mpr ⟨hcor, rfl⟩,
    correct_hasConstants config _ kf' c 0 hc' hcor, ?_, ?_, ?_⟩
  · rw [hP', hcast, cf_P, cf_de_succ, cf_be_succ, cf_al_succ]
  · rw [hx', hcast, cf_pos, cf_n0_succ]
    rfl
  · rw [hx', hcast, cf_speed]
    rfl

/-- The freshly created filter is in the closed form at `0`. -/
theorem closed_form_create (config : kalman_config_t) (hr : 0 < config.measurement_var)
    (init_state : kalman_out_t) (c : ℚ) :
    (kalman_create config init_state).P = cf_P config.dt config.measurement_var (0 : ℕ) ∧
    (kalman_create config init_state).x 0 =
      cf_pos config.dt config.measurement_var (init_state.pos - c) init_state.speed c (0 : ℕ) ∧
    (kalman_create config init_state).x 1 =
      cf_speed config.dt config.measurement_var (init_state.pos - c) init_state.speed
        (0 : ℕ) := by
  have hr' : config.measurement_var ≠ 0 := ne_of_gt hr
  refine ⟨?_, ?_, ?_⟩
  · rw [create_P]
    apply mat2_ext <;>
      simp [cf_P, cf_den, cf_de, cf_be, cf_al] <;> (field_simp; ring)
  · rw [create_x]
    show init_state.pos = _
    simp only [cf_pos, cf_n0, cf_den, Nat.cast_zero]
    field_simp
    ring
  · rw [create_x]
    show init_state.speed = _
    simp only [cf_speed, cf_n1, cf_den, Nat.cast_zero]
    field_simp
    ring

/-- Every cycle on the constant sample `(c, 0)` completes, and cycle `n + 1`
returns the closed form at `n + 1`. -/
theorem run_const_closed_form (config : kalman_config_t) (hq : config.process_var = 0)
    (hr : 0 < config.measurement_var) (init_state : kalman_out_t) (c : ℚ) (n : ℕ) :
    ∃ kf, run_const (kalman_create config init_state) ⟨c, 0⟩ n =
        some (⟨cf_pos config.dt config.measurement_var (init_state.pos - c) init_state.speed c
                ((n + 1 : ℕ) : ℚ),
               cf_speed config.dt config.measurement_var (init_state.pos - c) init_state.speed
                ((n + 1 : ℕ) : ℚ)⟩, kf) ∧
      HasConstants config kf ∧
      kf.P = cf_P config.dt config.measurement_var ((n + 1 : ℕ) : ℚ) ∧
      kf.x 0 = cf_pos config.dt config.measurement_var (init_state.pos - c) init_state.speed c
        ((n + 1 : ℕ) : ℚ) ∧
      kf.x 1 = cf_speed config.dt config.measurement_var (init_state.pos - c) init_state.speed
        ((n + 1 : ℕ) : ℚ) := by
  induction n with
  | zero =>
    obtain ⟨hP, hx0, hx1⟩ := closed_form_create config hr init_state c
    obtain ⟨kf', hrun, hc', hP', h0, h1⟩ := closed_form_step config hq hr
      (kalman_create config init_state) c (init_state.pos - c) init_state.speed 0
      (create_hasConstants config init_state) hP hx0 hx1
    refine ⟨kf', ?_, hc', hP', h0, h1⟩
    rw [run_const, hrun, h0, h1]
  | succ k ih =>
    obtain ⟨kf, hk, hc, hP, hx0, hx1⟩ := ih
    obtain ⟨kf', hrun, hc', hP', h0, h1⟩ := closed_form_step config hq hr
      kf c (init_state.pos - c) init_state.speed (k + 1) hc hP hx0 hx1
    refine ⟨kf', ?_, hc', hP', h0, h1⟩
    rw [run_const, hk]
    simp only []
    rw [hrun, h0, h1]

/-! ### The closed form tends to `(c, 0)` -/

theorem cf_bound_A (dt r : ℚ) (hr : 0 < r) (m : ℕ) :
    ((m : ℚ) + 1) * (r + dt ^ 2 * (((m : ℚ) + 1) * (((m : ℚ) + 1) ^ 2 - 1) / 6)) ≤
      3 * cf_den dt r ((m : ℚ) + 1) := by
  unfold cf_den
  rw [← sub_nonneg]
  ring_nf
  positivity

theorem cf_bound_B (dt r : ℚ) (hr : 0 < r) (m : ℕ) :
    (dt * r) * (((m : ℚ) + 1) * (dt * ((m : ℚ) + 1) * (2 * r + ((m : ℚ) + 1) - 1) / 2)) ≤
      (r + 3) * cf_den dt r ((m : ℚ) + 1) := by
  unfold cf_den
  rw [← sub_nonneg]
  ring_nf
  positivity

theorem cf_bound_C (dt r : ℚ) (hr : 0 < r) (m : ℕ) :
    (2 * dt * r) * (((m : ℚ) + 1) * (dt * ((m : ℚ) + 1) * (((m : ℚ) + 1) + 1) / 2)) ≤
      3 * cf_den dt r ((m : ℚ) + 1) := by
  unfold cf_den
  rw [← sub_nonneg]
  ring_nf
  positivity

theorem cf_bound_D (dt r : ℚ) (hr : 0 < r) (m : ℕ) :
    (dt ^ 2 * r) * (((m : ℚ) + 1) * (r + ((m : ℚ) + 1))) ≤
      (dt ^ 2 * r + 1) * cf_den dt r ((m : ℚ) + 1) := by
  unfold cf_den
  rw [← sub_nonneg]
  ring_nf
  positivity

theorem cf_den_pos_succ (dt r : ℚ) (hr : 0 < r) (m : ℕ) : 0 < cf_den dt r ((m : ℚ) + 1) := by
  have h := cf_den_pos dt r hr (m + 1)
  have hcast : ((m + 1 : ℕ) : ℚ) = (m : ℚ) + 1 := by push_cast; ring
  rw [hcast] at h
  exact h

/-- A value `r*num/den` with `|num| * N ≤ C * den` is at most `r*C/N` in size. -/
theorem ratio_bound (r num den N C : ℚ) (hr : 0 < r) (hden : 0 < den)
    (h : |num| * N ≤ C * den) : |r * num / den| * N ≤ r * C := by
  rw [abs_div, abs_mul, abs_of_pos hr, abs_of_pos hden]
  have e : r * |num| / den * N = r * (|num| * N) / den := by ring
  rw [e, div_le_iff₀ hden]
  have := mul_le_mul_of_nonneg_left h (le_of_lt hr)
  linarith

/-- The position error of the closed form is `O(1/N)`. -/
theorem cf_pos_bound (dt r e0 e1 c : ℚ) (hdt : 0 < dt) (hr : 0 < r) (m : ℕ) :
    |cf_pos dt r e0 e1 c ((m : ℚ) + 1) - c| * ((m : ℚ) + 1) ≤
      r * (3 * |e0| + (r + 3) / (dt * r) * |e1|) := by
  have hN : (0 : ℚ) < (m : ℚ) + 1 := by positivity
  have hΔ := cf_den_pos_succ dt r hr m
  have hdr : 0 < dt * r := mul_pos hdt hr
  have hsub : cf_pos dt r e0 e1 c ((m : ℚ) + 1) - c =
      r * cf_n0 dt r e0 e1 ((m : ℚ) + 1) / cf_den dt r ((m : ℚ) + 1) := by
    unfold cf_pos
    ring
  rw [hsub]
  apply ratio_bound r _ _ _ _ hr hΔ
  -- the coefficients of `e0` and `e1`
  have hK : 0 ≤ dt ^ 2 * (((m : ℚ) + 1) * (((m : ℚ) + 1) ^ 2 - 1) / 6) := by
    have : 0 ≤ ((m : ℚ) + 1) ^ 2 - 1 := by
      have hm : (0 : ℚ) ≤ m := by positivity
      nlinarith
    positivity
  have hB : 0 ≤ dt * ((m : ℚ) + 1) * (2 * r + ((m : ℚ) + 1) - 1) / 2 := by
    have hm : (0 : ℚ) ≤ m := by positivity
    have : 0 ≤ 2 * r + ((m : ℚ) + 1) - 1 := by linarith
    positivity
  have ha : |r - dt ^ 2 * (((m : ℚ) + 1) * (((m : ℚ) + 1) ^ 2 - 1) / 6)| ≤
      r + dt ^ 2 * (((m : ℚ) + 1) * (((m : ℚ) + 1) ^ 2 - 1) / 6) := by
    rw [abs_le]
    constructor <;> linarith
  have hnum : |cf_n0 dt r e0 e1 ((m : ℚ) + 1)| ≤
      (r + dt ^ 2 * (((m : ℚ) + 1) * (((m : ℚ) + 1) ^ 2 - 1) / 6)) * |e0| +
      (dt * ((m : ℚ) + 1) * (2 * r + ((m : ℚ) + 1) - 1) / 2) * |e1| := by
    unfold cf_n0
    refine le_trans (abs_add _ _) ?_
    rw [abs_mul, abs_mul, abs_of_nonneg hB]
    have := mul_le_mul_of_nonneg_right ha (abs_nonneg e0)
    linarith
  have hA' := cf_bound_A dt r hr m
  have hB' : ((m : ℚ) + 1) * (dt * ((m : ℚ) + 1) * (2 * r + ((m : ℚ) + 1) - 1) / 2) ≤
      (r + 3) / (dt * r) * cf_den dt r ((m : ℚ) + 1) := by
    have h := cf_bound_B dt r hr m
    rw [div_mul_eq_mul_div, le_div_iff₀ hdr]
    linarith
  have t0 := mul_le_mul_of_nonneg_right hA' (abs_nonneg e0)
  have t1 := mul_le_mul_of_nonneg_right hB' (abs_nonneg e1)
  have t2 := mul_le_mul_of_nonneg_right hnum (le_of_lt hN)
  nlinarith

/-- The speed of the closed form is `O(1/N)`. -/
theorem cf_speed_bound (dt r e0 e1 : ℚ) (hdt : 0 < dt) (hr : 0 < r) (m : ℕ) :
    |cf_speed dt r e0 e1 ((m : ℚ) + 1)| * ((m : ℚ) + 1) ≤
      r * (3 / (2 * dt * r) * |e0| + (dt ^ 2 * r + 1) / (dt ^ 2 * r) * |e1|) := by
  have hN : (0 : ℚ) < (m : ℚ) + 1 := by positivity
  have hΔ := cf_den_pos_succ dt r hr m
  have hdr : 0 < 2 * dt * r := by positivity
  have hd2r : 0 < dt ^ 2 * r := by positivity
  unfold cf_speed
  apply ratio_bound r _ _ _ _ hr hΔ
  have hA : 0 ≤ dt * ((m : ℚ) + 1) * (((m : ℚ) + 1) + 1) / 2 := by positivity
  have hB : 0 ≤ r + ((m : ℚ) + 1) := by positivity
  have hnum : |cf_n1 dt r e0 e1 ((m : ℚ) + 1)| ≤
      (dt * ((m : ℚ) + 1) * (((m : ℚ) + 1) + 1) / 2) * |e0| + (r + ((m : ℚ) + 1)) * |e1| := by
    unfold cf_n1
    refine le_trans (abs_add _ _) ?_
    rw [abs_mul, abs_mul, abs_neg, abs_of_nonneg hA, abs_of_nonneg hB]
  have hA' : ((m : ℚ) + 1) * (dt * ((m : ℚ) + 1) * (((m : ℚ) + 1) + 1) / 2) ≤
      3 / (2 * dt * r) * cf_den dt r ((m : ℚ) + 1) := by
    have h := cf_bound_C dt r hr m
    rw [div_mul_eq_mul_div, le_div_iff₀ hdr]
    linarith
  have hB' : ((m : ℚ) + 1) * (r + ((m : ℚ) + 1)) ≤
      (dt ^ 2 * r + 1) / (dt ^ 2 * r) * cf_den dt r ((m : ℚ) + 1) := by
    have h := cf_bound_D dt r hr m
    rw [div_mul_eq_mul_div, le_div_iff₀ hd2r]
    linarith
  have t0 := mul_le_mul_of_nonneg_right hA' (abs_nonneg e0)
  have t1 := mul_le_mul_of_nonneg_right hB' (abs_nonneg e1)
  have t2 := mul_le_mul_of_nonneg_right hnum (le_of_lt hN)
  nlinarith

/-- Convergence of a rational sequence from the `ε`-`N` condition over `ℚ`. -/
theorem tendsto_of_eps (u : ℕ → ℚ) (a : ℚ)
    (h : ∀ ε : ℚ, 0 < ε → ∃ N : ℕ, ∀ n, N ≤ n → |u n - a| < ε) :
    Filter.Tendsto u Filter.atTop (nhds a) := by
  rw [Metric.tendsto_atTop]
  intro ε hε
  obtain ⟨q, hq0, hqε⟩ := exists_rat_btwn hε
  obtain ⟨N, hN⟩ := h q (by exact_mod_cast hq0)
  refine ⟨N, fun n hn => ?_⟩
  rw [Rat.dist_eq]
  have h1 : ((|u n - a| : ℚ) : ℝ) < q := by exact_mod_cast hN n hn
  have h2 : ((|u n - a| : ℚ) : ℝ) = |(u n : ℝ) - (a : ℝ)| := by push_cast; rfl
  rw [← h2]
  exact lt_trans h1 hqε

/-- A sequence with `|u n| * (n + 1) ≤ C` is eventually below every `ε > 0`. -/
theorem eventually_small (u : ℕ → ℚ) (C : ℚ)
    (h : ∀ n : ℕ, |u n| * ((n : ℚ) + 1) ≤ C) (ε : ℚ) (hε : 0 < ε) :
    ∃ N : ℕ, ∀ n, N ≤ n → |u n| < ε := by
  obtain ⟨N, hN⟩ := exists_nat_gt (C / ε)
  refine ⟨N, fun n hn => ?_⟩
  have hn' : (N : ℚ) ≤ n := by exact_mod_cast hn
  have hpos : (0 : ℚ) < (n : ℚ) + 1 := by positivity
  have hC : C < ε * ((n : ℚ) + 1) := by
    have h1 : C / ε < (n : ℚ) + 1 := by linarith
    rw [div_lt_iff₀ hε] at h1
    linarith
  have h2 := h n
  by_contra hcon
  push_neg at hcon
  have h3 := mul_le_mul_of_nonneg_right hcon (le_of_lt hpos)
  linarith

/-- Cycle `n + 2` on a constant sample is cycle `n + 1` started one cycle later. -/
theorem run_const_shift (kf : kalman) (inp : kalman_in_t) (n : ℕ) :
    run_const kf inp (n + 1) =
      match kalman_run kf inp with
      | none => none
      | some (_, kf') => run_const kf' inp n := by
  induction n with
  | zero =>
    simp only [run_const]
  | succ k ih =>
    rw [run_const, ih]
    cases h : kalman_run kf inp with
    | none => rfl
    | some r => simp only [run_const]

/-- The outputs that `run_all` collects on a constant input sequence are the
outputs of `run_const`. -/
theorem run_all_replicate (inp : kalman_in_t) (n : ℕ) :
    ∀ (kf : kalman) (outs : List kalman_out_t) (kf' : kalman),
      run_all kf (List.replicate n inp) = some (outs, kf') →
      ∀ i, i < n → (run_const kf inp i).map Prod.fst = outs[i]? := by
  induction n with
  | zero =>
    intro kf outs kf' _ i hi
    exact absurd hi (Nat.not_lt_zero i)
  | succ k ih =>
    intro kf outs kf' h i hi
    rw [List.replicate_succ, run_all] at h
    cases h1 : kalman_run kf inp with
    | none =>
      rw [h1] at h
      exact absurd h (by simp)
    | some r =>
      obtain ⟨out, kf1⟩ := r
      rw [h1] at h
      simp only [] at h
      cases h2 : run_all kf1 (List.replicate k inp) with
      | none =>
        rw [h2] at h
        exact absurd h (by simp)
      | some r2 =>
        obtain ⟨outs2, kf2⟩ := r2
        rw [h2] at h
        simp only [Option.some.injEq, Prod.mk.injEq] at h
        obtain ⟨houts, _⟩ := h
        subst houts
        cases i with
        | zero => simp [run_const, h1]
        | succ j =>
          rw [run_const_shift, h1]
          simp only [List.getElem?_cons_succ]
          exact ih kf1 outs2 kf2 h2 j (Nat.lt_of_succ_lt_succ hi)

/-- C18: for every configuration with `dt > 0`, `process_var = 0` and
`measurement_var > 0`, every initial state and every constant `c`, if every
cycle's input is `(pos = c, acc = 0)` then every cycle completes and the sequence
`out` of `kalman_run` outputs (`out n` the output of cycle `n + 1`) satisfies
`out.pos → c` and `out.speed → 0` as the number of cycles tends to infinity, in
exact arithmetic: for every `ε > 0` both errors are eventually below `ε`. -/
theorem constant_measurement_converges (config : kalman_config_t)
    (hdt : 0 < config.dt) (hq : config.process_var = 0) (hr : 0 < config.measurement_var)
    (init_state : kalman_out_t) (c : ℚ) :
    ∃ out : ℕ → kalman_out_t,
      (∀ n, ∃ kf, run_const (kalman_create config init_state) ⟨c, 0⟩ n = some (out n, kf)) ∧
      (∀ n, ∃ outs kf,
        run_all (kalman_create config init_state) (List.replicate n ⟨c, 0⟩) = some (outs, kf) ∧
        outs.length = n ∧ ∀ i, i < n → outs[i]? = some (out i)) ∧
      (∀ ε : ℚ, 0 < ε → ∃ N : ℕ, ∀ n, N ≤ n →
        |(out n).pos - c| < ε ∧ |(out n).speed| < ε) ∧
      Filter.Tendsto (fun n => (out n).pos) Filter.atTop (nhds c) ∧
      Filter.Tendsto (fun n => (out n).speed) Filter.atTop (nhds 0) := by
  have hcast : ∀ n : ℕ, ((n + 1 : ℕ) : ℚ) = (n : ℚ) + 1 := by
    intro n
    push_cast
    ring
  have h1 : ∀ n, ∃ kf, run_const (kalman_create config init_state) ⟨c, 0⟩ n =
      some ((⟨cf_pos config.dt config.measurement_var (init_state.pos - c) init_state.speed c
                ((n + 1 : ℕ) : ℚ),
              cf_speed config.dt config.measurement_var (init_state.pos - c) init_state.speed
                ((n + 1 : ℕ) : ℚ)⟩ : kalman_out_t), kf) := by
    intro n
    obtain ⟨kf, h, _⟩ := run_const_closed_form config hq hr init_state c n
    exact ⟨kf, h⟩
  have hpos : ∀ ε : ℚ, 0 < ε → ∃ N : ℕ, ∀ n, N ≤ n →
      |cf_pos config.dt config.measurement_var (init_state.pos - c) init_state.speed c
        ((n + 1 : ℕ) : ℚ) - c| < ε := by
    intro ε hε
    exact eventually_small
      (fun n => cf_pos config.dt config.measurement_var (init_state.pos - c) init_state.speed c
        ((n + 1 : ℕ) : ℚ) - c)
      (config.measurement_var * (3 * |init_state.pos - c| +
        (config.measurement_var + 3) / (config.dt * config.measurement_var) *
          |init_state.speed|))
      (fun n => by
        simp only []
        rw [hcast]
        exact cf_pos_bound config.dt config.measurement_var (init_state.pos - c)
          init_state.speed c hdt hr n) ε hε
  have hspeed : ∀ ε : ℚ, 0 < ε → ∃ N : ℕ, ∀ n, N ≤ n →
      |cf_speed config.dt config.measurement_var (init_state.pos - c) init_state.speed
        ((n + 1 : ℕ) : ℚ)| < ε := by
    intro ε hε
    exact eventually_small
      (fun n => cf_speed config.dt config.measurement_var (init_state.pos - c) init_state.speed
        ((n + 1 : ℕ) : ℚ))
      (config.measurement_var * (3 / (2 * config.dt * config.measurement_var) *
          |init_state.pos - c| +
        (config.dt ^ 2 * config.measurement_var + 1) / (config.dt ^ 2 * config.measurement_var) *
          |init_state.speed|))
      (fun n => by
        simp only []
        rw [hcast]
        exact cf_speed_bound config.dt config.measurement_var (init_state.pos - c)
          init_state.speed hdt hr n) ε hε
  refine ⟨fun n => ⟨cf_pos config.dt config.measurement_var (init_state.pos - c)
      init_state.speed c ((n + 1 : ℕ) : ℚ),
    cf_speed config.dt config.measurement_var (init_state.pos - c) init_state.speed
      ((n + 1 : ℕ) : ℚ)⟩, h1, ?_, ?_, ?_, ?_⟩
  · intro n
    obtain ⟨outs, kf, h, hlen, _, _⟩ := reach_inv config (le_of_eq hq.symm) hr init_state
      (List.replicate n ⟨c, 0⟩)
    refine ⟨outs, kf, h, by rw [hlen, List.length_replicate], ?_⟩
    intro i hi
    rw [← run_all_replicate ⟨c, 0⟩ n _ outs kf h i hi]
    obtain ⟨kfi, hki⟩ := h1 i
    rw [hki]
    rfl
  · intro ε hε
    obtain ⟨N1, hN1⟩ := hpos ε hε
    obtain ⟨N2, hN2⟩ := hspeed ε hε
    exact ⟨max N1 N2, fun n hn =>
      ⟨hN1 n (le_trans (le_max_left _ _) hn), hN2 n (le_trans (le_max_right _ _) hn)⟩⟩
  · exact tendsto_of_eps _ c hpos
  · apply tendsto_of_eps _ 0
    intro ε hε
    obtain ⟨N, hN⟩ := hspeed ε hε
    exact ⟨N, fun n hn => by rw [sub_zero]; exact hN n hn⟩

/-- Witness for C18: `dt = 1`, `q = 0`, `r = 4`, start `(3, 5)`, constant
measurement `7`. -/
theorem constant_measurement_converges_witness :
    0 < config_trace.dt ∧ config_trace.process_var = 0 ∧ 0 < config_trace.measurement_var ∧
    ∃ out : ℕ → kalman_out_t,
      (∀ n, ∃ kf, run_const (kalman_create config_trace init_sample) ⟨7, 0⟩ n =
        some (out n, kf)) ∧
      (∀ n, ∃ outs kf,
        run_all (kalman_create config_trace init_sample) (List.replicate n ⟨7, 0⟩) =
          some (outs, kf) ∧
        outs.length = n ∧ ∀ i, i < n → outs[i]? = some (out i)) ∧
      (∀ ε : ℚ, 0 < ε → ∃ N : ℕ, ∀ n, N ≤ n →
        |(out n).pos - 7| < ε ∧ |(out n).speed| < ε) ∧
      Filter.Tendsto (fun n => (out n).pos) Filter.atTop (nhds 7) ∧
      Filter.Tendsto (fun n => (out n).speed) Filter.atTop (nhds 0) :=
  ⟨by norm_num [config_trace], rfl, by norm_num [config_trace],
    constant_measurement_converges config_trace (by norm_num [config_trace]) rfl
      (by norm_num [config_trace]) init_sample 7⟩

end KalmanMeschach
